import Mathlib

/-!
Verification development for the static-exclusivity diagnostic pass
(`lib/SILOptimizer/Mandatory/DiagnoseStaticExclusivity.cpp`).

The pass is shallowly embedded: SIL values, instructions and AST nodes become
inductive types keyed on natural-number identities (structural equality of the
model stands for C++ pointer identity: distinct instructions receive distinct
ids).  The `unsigned` counters of `AccessInfo` are modelled as naturals reduced
mod `2 ^ 32`.  C++ `assert`s and `llvm_unreachable` are modelled as `Fault`
values returned through `Except`; one `Fault` constructor marks the place where
the source dereferences a `DenseMap` end iterator, which C++ leaves undefined.
-/

namespace StaticExclusivity

/-- `unsigned` is modelled as a 32-bit machine integer. -/
def UWIDTH : Nat := 2 ^ 32

/-- Increment of an `unsigned` counter (`Reads++` / `NonReads++`). -/
def uinc (n : Nat) : Nat := (n + 1) % UWIDTH

/-- Decrement of an `unsigned` counter (`Reads--` / `NonReads--`), wrapping at zero. -/
def udec (n : Nat) : Nat := (n + (UWIDTH - 1)) % UWIDTH

/-- `SILAccessKind` of a `begin_access`; the pass only distinguishes `Read`
from the non-read ("write-like") kinds, except that the fix-it requires `Modify`. -/
inductive SILAccessKind : Type
  | Init
  | Read
  | Modify
  | Deinit
deriving DecidableEq

/-- `AccessedStorageKind` (the tag of the `AccessedStorage` union). -/
inductive AccessedStorageKind : Type
  | Value
  | GlobalVar
  | ClassProperty
deriving DecidableEq

/-- A `SILGlobalVariable`; `ident` models pointer identity, `decl` models
`getDecl()` (the `VarDecl` used for diagnostics, when present). -/
structure SILGlobalVariable where
  ident : Nat
  decl : Option Nat
deriving DecidableEq

/-- A `Projection` derived from a `ref_element_addr`; `varDecl` models
`Projection::getVarDecl` applied to the object's type. -/
structure Projection where
  field : Nat
  varDecl : Option Nat
deriving DecidableEq

/-- An object-typed SIL value, as consumed by `findUnderlyingObject`:
either a `begin_borrow` wrapper or some other object definition. -/
inductive ObjectValue : Type
  | beginBorrow (operand : ObjectValue)
  | rootObject (ident : Nat)
deriving DecidableEq

/-- An address-producing SIL value, as walked by `findAccessedStorage`.
Transparent producers carry their `getOperand(0)`; base producers carry the
identity of the defining value (and, for diagnostics, an optional `ValueDecl`
where `getStorageDecl` consults one).  The last four constructors are the
producers the walk rejects (`llvm_unreachable`), `unrecognizedProducer`
standing for the `default:` case. -/
inductive AddressValue : Type
  | globalAddr (g : SILGlobalVariable)
  | refElementAddr (object : ObjectValue) (proj : Projection)
  | projectBox (operand : AddressValue)
  | copyValue (operand : AddressValue)
  | markUninitialized (operand : AddressValue)
  | uncheckedAddrCast (operand : AddressValue)
  | structElementAddr (operand : AddressValue)
  | tupleElementAddr (operand : AddressValue)
  | uncheckedTakeEnumDataAddr (operand : AddressValue)
  | refTailAddr (operand : AddressValue)
  | tailAddr (operand : AddressValue)
  | indexAddr (operand : AddressValue)
  | allocBox (ident : Nat) (decl : Option Nat)
  | allocStack (ident : Nat)
  | beginAccessBase (ident : Nat)
  | functionArgument (ident : Nat) (decl : Option Nat)
  | pointerToAddress (ident : Nat)
  | initEnumDataAddr (operand : AddressValue)
  | initExistentialAddr (operand : AddressValue)
  | openExistentialAddr (operand : AddressValue)
  | unrecognizedProducer (ident : Nat)
deriving DecidableEq

/-- `ObjectProjection`: a base object paired with a single projection. -/
structure ObjectProjection where
  object : ObjectValue
  proj : Projection
deriving DecidableEq

/-- `AccessedStorage`: the identity of a storage location being accessed.
`value` is keyed on the defining SIL value (a resolver root), `globalVar` on
the global variable, `classProperty` on an `ObjectProjection`. -/
inductive AccessedStorage : Type
  | value (v : AddressValue)
  | globalVar (g : SILGlobalVariable)
  | classProperty (op : ObjectProjection)
deriving DecidableEq

/-- `AccessedStorage::getKind`. -/
def AccessedStorage.getKind : AccessedStorage → AccessedStorageKind
  | .value _ => .Value
  | .globalVar _ => .GlobalVar
  | .classProperty _ => .ClassProperty

/-- `DenseMapInfo<AccessedStorage>::isEqual`: unequal kinds are unequal;
within a kind, `value` compares the `SILValue`s, `globalVar` the global
pointers, `classProperty` the object projections (`operator==` compares the
object and the projection componentwise).  Structural equality of the model
types stands for the pointer comparisons. -/
def isEqual (lhs rhs : AccessedStorage) : Bool :=
  match lhs, rhs with
  | .value v1, .value v2 => decide (v1 = v2)
  | .globalVar g1, .globalVar g2 => decide (g1 = g2)
  | .classProperty p1, .classProperty p2 => decide (p1 = p2)
  | _, _ => false

/-- `AccessedStorage::getStorageDecl`: the `ValueDecl` for the storage, when
determinable.  A `value` location yields a decl only for an `alloc_box` (via
its location's `VarDecl`) or a function argument; a global yields its decl; a
class property consults `Projection::getVarDecl`. -/
def AccessedStorage.getStorageDecl : AccessedStorage → Option Nat
  | .globalVar g => g.decl
  | .value v =>
    match v with
    | .allocBox _ d => d
    | .functionArgument _ d => d
    | _ => none
  | .classProperty op => op.proj.varDecl

/-- `findUnderlyingObject`: strip `begin_borrow` wrappers from an object value. -/
def findUnderlyingObject : ObjectValue → ObjectValue
  | .beginBorrow operand => findUnderlyingObject operand
  | .rootObject i => .rootObject i

/-- `findAccessedStorage`: walk an address back to the storage it accesses.
`global_addr` and `ref_element_addr` terminate the walk with a global or
class-property identity; transparent producers recurse into their operand;
base producers yield a `value` identity keyed on the producer itself.  The
unsupported producers hit `llvm_unreachable` in the source, modelled as
`none`. -/
def findAccessedStorage : AddressValue → Option AccessedStorage
  | .globalAddr g => some (.globalVar g)
  | .refElementAddr object proj =>
      some (.classProperty ⟨findUnderlyingObject object, proj⟩)
  | .projectBox operand => findAccessedStorage operand
  | .copyValue operand => findAccessedStorage operand
  | .markUninitialized operand => findAccessedStorage operand
  | .uncheckedAddrCast operand => findAccessedStorage operand
  | .structElementAddr operand => findAccessedStorage operand
  | .tupleElementAddr operand => findAccessedStorage operand
  | .uncheckedTakeEnumDataAddr operand => findAccessedStorage operand
  | .refTailAddr operand => findAccessedStorage operand
  | .tailAddr operand => findAccessedStorage operand
  | .indexAddr operand => findAccessedStorage operand
  | .allocBox i d => some (.value (.allocBox i d))
  | .allocStack i => some (.value (.allocStack i))
  | .beginAccessBase i => some (.value (.beginAccessBase i))
  | .functionArgument i d => some (.value (.functionArgument i d))
  | .pointerToAddress i => some (.value (.pointerToAddress i))
  | .initEnumDataAddr _ => none
  | .initExistentialAddr _ => none
  | .openExistentialAddr _ => none
  | .unrecognizedProducer _ => none

/-- The chain of address producers walked by `findAccessedStorage` reaches a
producer outside the allow-listed set (spec wording: the producer chain
contains a producer outside the recognized transparent producers and roots). -/
def hasUnsupportedProducer : AddressValue → Bool
  | .globalAddr _ => false
  | .refElementAddr _ _ => false
  | .projectBox operand => hasUnsupportedProducer operand
  | .copyValue operand => hasUnsupportedProducer operand
  | .markUninitialized operand => hasUnsupportedProducer operand
  | .uncheckedAddrCast operand => hasUnsupportedProducer operand
  | .structElementAddr operand => hasUnsupportedProducer operand
  | .tupleElementAddr operand => hasUnsupportedProducer operand
  | .uncheckedTakeEnumDataAddr operand => hasUnsupportedProducer operand
  | .refTailAddr operand => hasUnsupportedProducer operand
  | .tailAddr operand => hasUnsupportedProducer operand
  | .indexAddr operand => hasUnsupportedProducer operand
  | .allocBox _ _ => false
  | .allocStack _ => false
  | .beginAccessBase _ => false
  | .functionArgument _ _ => false
  | .pointerToAddress _ => false
  | .initEnumDataAddr _ => true
  | .initExistentialAddr _ => true
  | .openExistentialAddr _ => true
  | .unrecognizedProducer _ => true

/-! ### AST nodes consumed by the diagnostic emitter and the fix-it heuristic

Expression nodes carry a `Nat` identity (pointer identity) and, where
`extractExprText` is applied to them, the text of their source range.  The
lexer/source-manager text extraction is consumed as a black-box service, so
each node stores the text `extractExprText` would return for it. -/

/-- An expression together with its extracted source text. -/
structure ExprNode where
  ident : Nat
  text : String
deriving DecidableEq

/-- A `SubscriptDecl`, with the context data the fix-it consults:
`protocolContext` models `getDeclContext()->getAsProtocolOrProtocolExtensionContext()`
and `satisfiedRequirementProtocols` the protocol of each declaration returned
by `getSatisfiedProtocolRequirements()`. -/
structure SubscriptDecl where
  ident : Nat
  protocolContext : Option Nat
  satisfiedRequirementProtocols : List Nat
deriving DecidableEq

/-- The index argument of a `SubscriptExpr`: either a `ParenExpr` wrapping a
single sub-expression, or some other expression shape (for example a
`TupleExpr` for a multi-argument or labeled subscript). -/
inductive IndexExpr : Type
  | paren (sub : ExprNode)
  | nonParen (e : ExprNode)
deriving DecidableEq

/-- A `SubscriptExpr`: base expression, resolved declaration and index. -/
structure SubscriptExpr where
  ident : Nat
  base : ExprNode
  decl : SubscriptDecl
  index : IndexExpr
deriving DecidableEq

/-- The sub-expression of an `InOutExpr`: a subscript or something else. -/
inductive InOutSub : Type
  | subscriptExpr (se : SubscriptExpr)
  | otherExpr (ident : Nat)
deriving DecidableEq

/-- An `InOutExpr` (`&x` argument expression). -/
structure InOutExpr where
  ident : Nat
  sub : InOutSub
deriving DecidableEq

/-- A `CallExpr` for a call to `swap`, with the identities of the two
elements of its argument tuple and the source range of the whole call. -/
structure CallExpr where
  ident : Nat
  arg1 : Nat
  arg2 : Nat
  sourceRange : Nat
deriving DecidableEq

/-- A `SILLocation`: its null flag, the AST nodes `getAsASTNode` yields, and
its source location/range for diagnostics. -/
structure SILLocation where
  isNull : Bool
  asInOutExpr : Option InOutExpr
  sourceLoc : Nat
  sourceRange : Nat
deriving DecidableEq

/-- A `begin_access` instruction: its access kind, address operand
(`getSource`) and location. -/
structure BeginAccessInst where
  ident : Nat
  accessKind : SILAccessKind
  source : AddressValue
  loc : SILLocation
deriving DecidableEq

/-- An `end_access` instruction; `getBeginAccess` is encoded structurally and
`getSource` forwards to the begin's source. -/
structure EndAccessInst where
  beginAccess : BeginAccessInst
deriving DecidableEq

/-- `EndAccessInst::getSource`. -/
def EndAccessInst.getSource (eai : EndAccessInst) : AddressValue :=
  eai.beginAccess.source

/-- An `apply` instruction, with the data the pass consults: the `FuncDecl`
of the referenced function when it has one (`getReferencedFunction` /
`hasLocation` / `getAsASTNode<FuncDecl>` collapsed into one option), and the
`CallExpr` of its location when it has one (`getLoc().isNull()` /
`getAsASTNode<CallExpr>` likewise). -/
structure ApplyInst where
  ident : Nat
  referencedFuncDecl : Option Nat
  callExpr : Option CallExpr
deriving DecidableEq

/-- The `ASTContext` facts the pass consults: the `swap` `FuncDecl`
(`Ctx.getSwap`), the `MutableCollection` protocol declaration
(`Ctx.getMutableCollectionDecl`) and the Swift-3 language-mode flag. -/
structure ASTContext where
  swapDecl : Nat
  mutableCollectionDecl : Nat
  isSwiftVersion3 : Bool
deriving DecidableEq

/-! ### Access state -/

/-- `AccessInfo`: in-progress access counts for one storage location. -/
structure AccessInfo where
  reads : Nat
  nonReads : Nat
  firstAccess : Option BeginAccessInst
deriving DecidableEq

/-- The value a `StorageMap` entry is default-constructed with
(`Accesses[Storage]` on a missing key). -/
def emptyAccessInfo : AccessInfo := ⟨0, 0, none⟩

/-- `AccessInfo::conflictsWithAccess`: a read conflicts with any non-read
access; a non-read access conflicts with any other access. -/
def AccessInfo.conflictsWithAccess (info : AccessInfo) (kind : SILAccessKind) : Bool :=
  if kind = SILAccessKind.Read then
    decide (0 < info.nonReads)
  else
    decide (0 < info.nonReads) || decide (0 < info.reads)

/-- `AccessInfo::alreadyHadConflict`. -/
def AccessInfo.alreadyHadConflict (info : AccessInfo) : Bool :=
  (decide (0 < info.nonReads) && decide (0 < info.reads)) || decide (1 < info.nonReads)

/-- `AccessInfo::hasAccessesInProgress`. -/
def AccessInfo.hasAccessesInProgress (info : AccessInfo) : Bool :=
  decide (0 < info.reads) || decide (0 < info.nonReads)

/-- `AccessInfo::getFirstAccess`. -/
def AccessInfo.getFirstAccess (info : AccessInfo) : Option BeginAccessInst :=
  info.firstAccess

/-- The internal faults of the analysis.  Each constructor marks one place
where the source asserts or aborts; `endIteratorDereference` marks the one
place (the `end_access` handler) where the source performs no check at all and
dereferences the `DenseMap` end iterator, to which C++ gives no semantics —
the model stops there with this marker. -/
inductive Fault : Type
  | unexpectedAccessSource
  | beginAccessCountersAssert
  | conflictMissingFirstAccess
  | endIteratorDereference
  | accessesNotEmptyAtReturn
  | readReadConflictAssert
deriving DecidableEq

/-- `AccessInfo::beginAccess`: on the record's first open access, assert the
counters are zero and remember the begin instruction; then increment the
counter matching the access kind. -/
def beginAccessImpl (info : AccessInfo) (bai : BeginAccessInst) :
    Except Fault AccessInfo :=
  match info.firstAccess with
  | none =>
    if info.reads = 0 ∧ info.nonReads = 0 then
      let info1 : AccessInfo := ⟨info.reads, info.nonReads, some bai⟩
      if bai.accessKind = SILAccessKind.Read then
        Except.ok ⟨uinc info1.reads, info1.nonReads, info1.firstAccess⟩
      else
        Except.ok ⟨info1.reads, uinc info1.nonReads, info1.firstAccess⟩
    else
      Except.error Fault.beginAccessCountersAssert
  | some _ =>
    if bai.accessKind = SILAccessKind.Read then
      Except.ok ⟨uinc info.reads, info.nonReads, info.firstAccess⟩
    else
      Except.ok ⟨info.reads, uinc info.nonReads, info.firstAccess⟩

/-- `AccessInfo::endAccess`: decrement the counter matching the paired
begin's kind; once both counters are zero, forget the first access. -/
def endAccessImpl (info : AccessInfo) (eai : EndAccessInst) : AccessInfo :=
  let info1 : AccessInfo :=
    if eai.beginAccess.accessKind = SILAccessKind.Read then
      ⟨udec info.reads, info.nonReads, info.firstAccess⟩
    else
      ⟨info.reads, udec info.nonReads, info.firstAccess⟩
  if info1.reads = 0 ∧ info1.nonReads = 0 then
    ⟨info1.reads, info1.nonReads, none⟩
  else
    info1

/-! ### The storage map

`StorageMap` (`llvm::SmallDenseMap<AccessedStorage, AccessInfo, 4>`) is
modelled as an association list.  The dense map compares keys with
`DenseMapInfo<AccessedStorage>::isEqual`; `isEqual_iff_eq` below shows that
test coincides with structural equality of the model, so the list operations
use structural key equality. -/

/-- The storage map: in-progress accesses per storage location. -/
abbrev StorageMap : Type := List (AccessedStorage × AccessInfo)

/-- Lookup (`Accesses.find`). -/
def mapGet? : StorageMap → AccessedStorage → Option AccessInfo
  | [], _ => none
  | (k, v) :: rest, st => if k = st then some v else mapGet? rest st

/-- Insert-or-replace (writing back through the `AccessInfo &` reference
obtained from `Accesses[Storage]`). -/
def mapSet : StorageMap → AccessedStorage → AccessInfo → StorageMap
  | [], st, info => [(st, info)]
  | (k, v) :: rest, st, info =>
    if k = st then (st, info) :: rest else (k, v) :: mapSet rest st info

/-- Erase (`Accesses.erase(It)`). -/
def mapErase : StorageMap → AccessedStorage → StorageMap
  | [], _ => []
  | (k, v) :: rest, st => if k = st then rest else (k, v) :: mapErase rest st

/-- `isCallToStandardLibrarySwap` (the `ApplyInst` overload): the referenced
function has a `FuncDecl` and it is `Ctx.getSwap`. -/
def isCallToStandardLibrarySwap (ai : ApplyInst) (ctx : ASTContext) : Bool :=
  match ai.referencedFuncDecl with
  | none => false
  | some fd => decide (fd = ctx.swapDecl)

/-- A recorded `ConflictingAccess`. -/
structure ConflictingAccess where
  storage : AccessedStorage
  firstAccess : BeginAccessInst
  secondAccess : BeginAccessInst
deriving DecidableEq

/-- The instructions the walker distinguishes; every other instruction leaves
the state unchanged (`other`). -/
inductive Instr : Type
  | beginAccess (bai : BeginAccessInst)
  | endAccess (eai : EndAccessInst)
  | apply (ai : ApplyInst)
  | ret
  | other
deriving DecidableEq

/-- The walker state threaded through `checkStaticExclusivity`'s instruction
loop: the live storage map, the recorded conflicts and the recorded calls to
`swap`. -/
structure WalkState where
  accesses : StorageMap
  conflicts : List ConflictingAccess
  callsToSwap : List ApplyInst
deriving DecidableEq

/-- The state at function entry. -/
def initialWalkState : WalkState := ⟨[], [], []⟩

/-- One iteration of the instruction loop of `checkStaticExclusivity`
(transfer function of a single instruction). -/
def stepInstr (s : WalkState) (ctx : ASTContext) : Instr → Except Fault WalkState
  | .beginAccess bai =>
    match findAccessedStorage bai.source with
    | none => Except.error Fault.unexpectedAccessSource
    | some storage =>
      let info := (mapGet? s.accesses storage).getD emptyAccessInfo
      let recordStep : Except Fault WalkState :=
        if info.conflictsWithAccess bai.accessKind ∧ ¬ info.alreadyHadConflict then
          match info.getFirstAccess with
          | none => Except.error Fault.conflictMissingFirstAccess
          | some conflict =>
            Except.ok ⟨s.accesses, s.conflicts ++ [⟨storage, conflict, bai⟩], s.callsToSwap⟩
        else
          Except.ok s
      match recordStep with
      | Except.error f => Except.error f
      | Except.ok s1 =>
        match beginAccessImpl info bai with
        | Except.error f => Except.error f
        | Except.ok info1 =>
          Except.ok ⟨mapSet s1.accesses storage info1, s1.conflicts, s1.callsToSwap⟩
  | .endAccess eai =>
    match findAccessedStorage eai.getSource with
    | none => Except.error Fault.unexpectedAccessSource
    | some storage =>
      match mapGet? s.accesses storage with
      | none => Except.error Fault.endIteratorDereference
      | some info =>
        let info1 := endAccessImpl info eai
        if info1.hasAccessesInProgress then
          Except.ok ⟨mapSet s.accesses storage info1, s.conflicts, s.callsToSwap⟩
        else
          Except.ok ⟨mapErase s.accesses storage, s.conflicts, s.callsToSwap⟩
  | .apply ai =>
    if isCallToStandardLibrarySwap ai ctx then
      Except.ok ⟨s.accesses, s.conflicts, s.callsToSwap ++ [ai]⟩
    else
      Except.ok s
  | .ret =>
    if s.accesses = [] then
      Except.ok s
    else
      Except.error Fault.accessesNotEmptyAtReturn
  | .other => Except.ok s

/-- The instruction loop over a linear instruction path.  The block-to-block
plumbing of `checkStaticExclusivity` copies one predecessor's out-state to
the successor unchanged (the SIL invariant that all incoming edges carry
identical state is assumed upstream), so the per-instruction loop over the
concatenated path is the whole transfer function. -/
def runTrace (ctx : ASTContext) : WalkState → List Instr → Except Fault WalkState
  | s, [] => Except.ok s
  | s, i :: rest =>
    match stepInstr s ctx i with
    | Except.error f => Except.error f
    | Except.ok s1 => runTrace ctx s1 rest

/-- The conflicts collected by a full walk of a path, when it does not fault. -/
def tracedConflicts (ctx : ASTContext) (tr : List Instr) : Option (List ConflictingAccess) :=
  match runTrace ctx initialWalkState tr with
  | Except.error _ => none
  | Except.ok s => some s.conflicts

/-! ### Diagnostics and the fix-it heuristic -/

/-- `ExclusiveOrShared_t`. -/
inductive ExclusiveOrShared : Type
  | ExclusiveAccess
  | SharedAccess
deriving DecidableEq

/-- `getRequiredAccess`: a read requires only shared access, every other
kind requires exclusive access. -/
def getRequiredAccess (bai : BeginAccessInst) : ExclusiveOrShared :=
  if bai.accessKind = SILAccessKind.Read then ExclusiveOrShared.SharedAccess
  else ExclusiveOrShared.ExclusiveAccess

/-- `static_cast<unsigned>` of a `SILAccessKind` (its declaration order). -/
def accessKindIndex : SILAccessKind → Nat
  | .Init => 0
  | .Read => 1
  | .Modify => 2
  | .Deinit => 3

/-- A fix-it replacement: the replaced source range and the new text. -/
structure FixIt where
  range : Nat
  text : String
deriving DecidableEq

/-- The loop over `CallsToSwap` looking for the call whose argument tuple has
exactly the two conflicting `InOutExpr`s as elements 0 and 1 (pointer
comparison); applies with a null or non-`CallExpr` location are skipped. -/
def findSwapCall (inOut1 inOut2 : InOutExpr) : List ApplyInst → Option CallExpr
  | [] => none
  | ai :: rest =>
    match ai.callExpr with
    | none => findSwapCall inOut1 inOut2 rest
    | some ce =>
      if ce.arg1 = inOut1.ident ∧ ce.arg2 = inOut2.ident then some ce
      else findSwapCall inOut1 inOut2 rest

/-- The `MutableCollection` capability test of the fix-it: either the
subscript's decl context is the `MutableCollection` protocol (or an extension
of it), or one of its satisfied protocol requirements lives there. -/
def isSubscriptOnMutableCollection (ctx : ASTContext) (d : SubscriptDecl) : Bool :=
  match d.protocolContext with
  | some p => decide (p = ctx.mutableCollectionDecl)
  | none => d.satisfiedRequirementProtocols.any (fun p => decide (p = ctx.mutableCollectionDecl))

/-- `tryFixItWithCallToCollectionSwapAt`: the syntactic pattern match that
suggests rewriting `swap(&base[i], &base[j])` into `base.swapAt(i, j)`.
Each early `return` of the source is one `none` branch; when every test
passes, the result replaces the found call's source range with
`<base>.swapAt(<index1>, <index2>)`. -/
def tryFixItWithCallToCollectionSwapAt (access1 access2 : BeginAccessInst)
    (callsToSwap : List ApplyInst) (ctx : ASTContext) : Option FixIt :=
  if callsToSwap = [] then none
  else if ¬ (access1.accessKind = SILAccessKind.Modify ∧
             access2.accessKind = SILAccessKind.Modify) then none
  else if access1.loc.isNull ∨ access2.loc.isNull then none
  else
    match access1.loc.asInOutExpr, access2.loc.asInOutExpr with
    | some inOut1, some inOut2 =>
      (match findSwapCall inOut1 inOut2 callsToSwap with
      | none => none
      | some foundCall =>
        match inOut1.sub, inOut2.sub with
        | InOutSub.subscriptExpr se1, InOutSub.subscriptExpr se2 =>
          if ¬ se1.decl = se2.decl then none
          else if ¬ isSubscriptOnMutableCollection ctx se1.decl then none
          else if ¬ se1.base.text = se2.base.text then none
          else
            match se1.index, se2.index with
            | IndexExpr.paren index1, IndexExpr.paren index2 =>
              some ⟨foundCall.sourceRange,
                    se1.base.text ++ ".swapAt(" ++ index1.text ++ ", " ++ index2.text ++ ")"⟩
            | _, _ => none
        | _, _ => none)
    | _, _ => none

/-- The diagnostic messages the pass emits (`diag::...` ids with their
substitutions; the declaration's name stands in for its descriptive kind and
base name). -/
inductive DiagMessage : Type
  | exclusivityAccessRequired (swift3 : Bool) (declName : Nat) (accessKind : Nat)
  | exclusivityAccessRequiredUnknownDecl (swift3 : Bool) (accessKind : Nat)
  | exclusivityConflictingAccess
deriving DecidableEq

/-- One emitted diagnostic: location, message, highlighted range and the
optional fix-it replacement attached to it. -/
structure Diagnostic where
  loc : Nat
  message : DiagMessage
  highlight : Nat
  fixIt : Option FixIt
deriving DecidableEq

/-- The access the primary diagnostic is sited at: the prior access when it
requires exclusivity, otherwise the new access (source lines selecting
`AccessForMainDiagnostic`). -/
def diagPrimaryAccess (priorAccess newAccess : BeginAccessInst) : BeginAccessInst :=
  if ¬ getRequiredAccess priorAccess = ExclusiveOrShared.ExclusiveAccess then newAccess
  else priorAccess

/-- The access attached as the conflicting-access note (the other one). -/
def diagNoteAccess (priorAccess newAccess : BeginAccessInst) : BeginAccessInst :=
  if ¬ getRequiredAccess priorAccess = ExclusiveOrShared.ExclusiveAccess then priorAccess
  else newAccess

/-- `diagnoseExclusivityViolation`: asserts the two accesses are not both
reads; diagnoses on the first access that requires exclusivity, attaching the
other as the conflicting-access note; mentions the storage's declaration when
there is one, in which case the fix-it heuristic may add a replacement. -/
def diagnoseExclusivityViolation (storage : AccessedStorage)
    (priorAccess newAccess : BeginAccessInst)
    (callsToSwap : List ApplyInst) (ctx : ASTContext) :
    Except Fault (List Diagnostic) :=
  if priorAccess.accessKind = SILAccessKind.Read ∧
     newAccess.accessKind = SILAccessKind.Read then
    Except.error Fault.readReadConflictAssert
  else
    let accessForMainDiagnostic := diagPrimaryAccess priorAccess newAccess
    let accessForNote := diagNoteAccess priorAccess newAccess
    let rangeForMain := accessForMainDiagnostic.loc.sourceRange
    let accessKindForMain := accessKindIndex accessForMainDiagnostic.accessKind
    let noteDiag : Diagnostic :=
      ⟨accessForNote.loc.sourceLoc, DiagMessage.exclusivityConflictingAccess,
       accessForNote.loc.sourceRange, none⟩
    match storage.getStorageDecl with
    | some vd =>
      Except.ok
        [⟨accessForMainDiagnostic.loc.sourceLoc,
          DiagMessage.exclusivityAccessRequired ctx.isSwiftVersion3 vd accessKindForMain,
          rangeForMain,
          tryFixItWithCallToCollectionSwapAt priorAccess newAccess callsToSwap ctx⟩,
         noteDiag]
    | none =>
      Except.ok
        [⟨accessForMainDiagnostic.loc.sourceLoc,
          DiagMessage.exclusivityAccessRequiredUnknownDecl ctx.isSwiftVersion3 accessKindForMain,
          rangeForMain, none⟩,
         noteDiag]

/-- The emission loop over the recorded conflicts, in recorded order.
Diagnostics stream out as they are produced; a fault (the both-reads assert)
stops the loop, keeping the diagnostics already emitted. -/
def emitAll (callsToSwap : List ApplyInst) (ctx : ASTContext) :
    List ConflictingAccess → List Diagnostic × Option Fault
  | [] => ([], none)
  | c :: rest =>
    match diagnoseExclusivityViolation c.storage c.firstAccess c.secondAccess
        callsToSwap ctx with
    | Except.error f => ([], some f)
    | Except.ok ds =>
      let tail := emitAll callsToSwap ctx rest
      (ds ++ tail.1, tail.2)

/-- `checkStaticExclusivity` over one linear instruction path: walk the path
collecting conflicts and swap calls, then emit the diagnostics.  The result
pairs the user diagnostics actually emitted with the internal fault that
stopped the analysis, if any. -/
def checkStaticExclusivity (tr : List Instr) (ctx : ASTContext) :
    List Diagnostic × Option Fault :=
  match runTrace ctx initialWalkState tr with
  | Except.error f => ([], some f)
  | Except.ok s => emitAll s.callsToSwap ctx s.conflicts

/-! ### Well-formed instruction paths and the tracked-count invariant -/

/-- The open reads of a ghost open-access list at one storage location. -/
def countOpenReads (opens : List BeginAccessInst) (st : AccessedStorage) : Nat :=
  (opens.filter (fun b =>
    decide (findAccessedStorage b.source = some st) &&
    decide (b.accessKind = SILAccessKind.Read))).length

/-- The open write-like accesses of a ghost open-access list at one storage
location. -/
def countOpenNonReads (opens : List BeginAccessInst) (st : AccessedStorage) : Nat :=
  (opens.filter (fun b =>
    decide (findAccessedStorage b.source = some st) &&
    ! decide (b.accessKind = SILAccessKind.Read))).length

/-- Well-formed access markers along a linear path, relative to the list of
currently open begin-accesses: every begin's address resolves, every end pairs
a currently open begin, and at every return every begin has been ended (the
claim's "every begin-access has exactly one paired end-access on every
path"). -/
def wfFrom : List BeginAccessInst → List Instr → Prop
  | opens, [] => opens = []
  | opens, Instr.beginAccess b :: rest =>
      (findAccessedStorage b.source).isSome = true ∧ wfFrom (b :: opens) rest
  | opens, Instr.endAccess e :: rest =>
      e.beginAccess ∈ opens ∧ wfFrom (opens.erase e.beginAccess) rest
  | opens, Instr.ret :: rest => opens = [] ∧ wfFrom opens rest
  | opens, Instr.apply _ :: rest => wfFrom opens rest
  | opens, Instr.other :: rest => wfFrom opens rest

/-- The invariant relating the live storage map to the ghost open-access
list: keys are unduplicated, every entry's counters are exactly the open
counts for its location with `firstAccess` set and at least one access open,
locations without an entry have no open accesses, and every open begin's
address resolves. -/
structure WalkInv (opens : List BeginAccessInst) (m : StorageMap) : Prop where
  keysNodup : (m.map Prod.fst).Nodup
  entries : ∀ st info, mapGet? m st = some info →
    info.reads = countOpenReads opens st ∧
    info.nonReads = countOpenNonReads opens st ∧
    info.firstAccess.isSome = true ∧
    0 < countOpenReads opens st + countOpenNonReads opens st
  absent : ∀ st, mapGet? m st = none →
    countOpenReads opens st = 0 ∧ countOpenNonReads opens st = 0
  resolvable : ∀ b ∈ opens, (findAccessedStorage b.source).isSome = true

/-- The `firstAccess` invariant of `AccessInfo` (spec §3): `firstAccess` is
set iff some access is in progress, for every record in the map. -/
def faInvariant (m : StorageMap) : Prop :=
  ∀ st info, mapGet? m st = some info →
    (info.firstAccess.isSome = true ↔ 0 < info.reads + info.nonReads)

/-- Every state along a walk of the path satisfies `P` and every step
succeeds. -/
def statesAlongSatisfy (P : StorageMap → Prop) (ctx : ASTContext) :
    WalkState → List Instr → Prop
  | s, [] => P s.accesses
  | s, i :: rest =>
    P s.accesses ∧ ∃ s', stepInstr s ctx i = Except.ok s' ∧ statesAlongSatisfy P ctx s' rest

/-! ### Spec-side conditions for the fix-it (refinement comparison) -/

/-- Modelled from the spec: the preconditions §4.4 states for the swapAt
fix-it — both accesses write-like, both locations inout expressions wrapping
subscript expressions, same subscript declaration satisfying the
mutable-indexable-collection capability, textually identical bases, and the
two inouts are arguments 1 and 2 of a recorded library-swap call.  The spec
does not mention any condition on the shape of the subscript index. -/
def FixItSpecConditions (access1 access2 : BeginAccessInst)
    (callsToSwap : List ApplyInst) (ctx : ASTContext) : Prop :=
  ¬ callsToSwap = [] ∧
  access1.accessKind = SILAccessKind.Modify ∧
  access2.accessKind = SILAccessKind.Modify ∧
  access1.loc.isNull = false ∧ access2.loc.isNull = false ∧
  ∃ (inOut1 inOut2 : InOutExpr) (foundCall : CallExpr) (se1 se2 : SubscriptExpr),
    access1.loc.asInOutExpr = some inOut1 ∧
    access2.loc.asInOutExpr = some inOut2 ∧
    findSwapCall inOut1 inOut2 callsToSwap = some foundCall ∧
    inOut1.sub = InOutSub.subscriptExpr se1 ∧
    inOut2.sub = InOutSub.subscriptExpr se2 ∧
    se1.decl = se2.decl ∧
    isSubscriptOnMutableCollection ctx se1.decl = true ∧
    se1.base.text = se2.base.text

/-- The index argument is a single plain parenthesized expression. -/
def indexIsSingleParen : IndexExpr → Bool
  | IndexExpr.paren _ => true
  | IndexExpr.nonParen _ => false

/-! ### Concrete fixtures for counterexamples and scenario checks -/

/-- A global variable `g` with a nameable declaration. -/
def cexGlobal : SILGlobalVariable := ⟨0, some 7⟩

/-- The address of `cexGlobal`, as produced by `global_addr`. -/
def cexAddr : AddressValue := AddressValue.globalAddr cexGlobal

/-- A non-null location with no inout AST node, at source position `i`. -/
def cexLoc (i : Nat) : SILLocation := ⟨false, none, i, i⟩

/-- A first read of the global. -/
def cexRead1 : BeginAccessInst := ⟨1, SILAccessKind.Read, cexAddr, cexLoc 10⟩

/-- A write to the global. -/
def cexWrite1 : BeginAccessInst := ⟨2, SILAccessKind.Modify, cexAddr, cexLoc 20⟩

/-- A second read of the global. -/
def cexRead2 : BeginAccessInst := ⟨3, SILAccessKind.Read, cexAddr, cexLoc 30⟩

/-- A context (swap decl 100, MutableCollection 101, Swift 4 mode). -/
def cexCtx : ASTContext := ⟨100, 101, false⟩

/-- Read, overlapping write, end of the read, second read, then both
remaining accesses end: the open-access set drains to empty only at the
second-to-last instruction. -/
def cexTraceEpisode : List Instr :=
  [Instr.beginAccess cexRead1, Instr.beginAccess cexWrite1,
   Instr.endAccess ⟨cexRead1⟩, Instr.beginAccess cexRead2,
   Instr.endAccess ⟨cexRead2⟩, Instr.endAccess ⟨cexWrite1⟩, Instr.ret]

/-- The spec's scenario: read the global, then begin a write before the read
has ended. -/
def cexTraceScenario : List Instr :=
  [Instr.beginAccess cexRead1, Instr.beginAccess cexWrite1,
   Instr.endAccess ⟨cexWrite1⟩, Instr.endAccess ⟨cexRead1⟩, Instr.ret]

/-- An `end_access` whose storage has no open record. -/
def cexTraceUnmatchedEnd : List Instr := [Instr.endAccess ⟨cexRead1⟩]

/-- The state after walking the first `k` instructions of a path, when no
fault occurred. -/
def walkStateAfter (ctx : ASTContext) (tr : List Instr) (k : Nat) : Option WalkState :=
  match runTrace ctx initialWalkState (List.take k tr) with
  | Except.ok s => some s
  | Except.error _ => none

/-- The conflicts recorded after walking the first `k` instructions. -/
def conflictsAfter (ctx : ASTContext) (tr : List Instr) (k : Nat) :
    Option (List ConflictingAccess) :=
  (walkStateAfter ctx tr k).map WalkState.conflicts

/-- Whether the storage map is nonempty after walking the first `k`
instructions (false when the walk faulted). -/
def accessesNonemptyAfter (ctx : ASTContext) (tr : List Instr) (k : Nat) : Bool :=
  match walkStateAfter ctx tr k with
  | some s => decide (¬ s.accesses = [])
  | none => false

/-! ### Fixtures for the fix-it heuristic -/

/-- A subscript declared directly on the `MutableCollection` protocol. -/
def cexSubscriptDecl : SubscriptDecl := ⟨50, some 101, []⟩

/-- The common base expression, with source text `c`. -/
def cexBase : ExprNode := ⟨60, "c"⟩

/-- First index expression, text `i`. -/
def cexIdx1 : ExprNode := ⟨61, "i"⟩

/-- Second index expression, text `j`. -/
def cexIdx2 : ExprNode := ⟨62, "j"⟩

/-- `c[i]` with a plain parenthesized index. -/
def cexSub1 : SubscriptExpr := ⟨63, cexBase, cexSubscriptDecl, IndexExpr.paren cexIdx1⟩

/-- `c[j]` whose index argument is not a plain `ParenExpr` (for example a
labeled or multi-argument subscript). -/
def cexSub2bad : SubscriptExpr := ⟨64, cexBase, cexSubscriptDecl, IndexExpr.nonParen cexIdx2⟩

/-- `c[j]` with a plain parenthesized index. -/
def cexSub2good : SubscriptExpr := ⟨65, cexBase, cexSubscriptDecl, IndexExpr.paren cexIdx2⟩

/-- `&c[i]`. -/
def cexInOut1 : InOutExpr := ⟨70, InOutSub.subscriptExpr cexSub1⟩

/-- `&c[j]` with the non-paren index. -/
def cexInOut2bad : InOutExpr := ⟨71, InOutSub.subscriptExpr cexSub2bad⟩

/-- `&c[j]` with the paren index. -/
def cexInOut2good : InOutExpr := ⟨72, InOutSub.subscriptExpr cexSub2good⟩

/-- The swap call whose arguments are the two inouts (non-paren variant). -/
def cexSwapCallBad : CallExpr := ⟨80, 70, 71, 81⟩

/-- The swap call whose arguments are the two inouts (paren variant). -/
def cexSwapCallGood : CallExpr := ⟨82, 70, 72, 83⟩

/-- The recorded apply of the library swap (non-paren variant). -/
def cexSwapApplyBad : ApplyInst := ⟨90, some 100, some cexSwapCallBad⟩

/-- The recorded apply of the library swap (paren variant). -/
def cexSwapApplyGood : ApplyInst := ⟨91, some 100, some cexSwapCallGood⟩

/-- The modify access for `&c[i]`. -/
def cexAccess1 : BeginAccessInst :=
  ⟨4, SILAccessKind.Modify, cexAddr, ⟨false, some cexInOut1, 40, 40⟩⟩

/-- The modify access for the non-paren `&c[j]`. -/
def cexAccess2bad : BeginAccessInst :=
  ⟨5, SILAccessKind.Modify, cexAddr, ⟨false, some cexInOut2bad, 41, 41⟩⟩

/-- The modify access for the paren `&c[j]`. -/
def cexAccess2good : BeginAccessInst :=
  ⟨6, SILAccessKind.Modify, cexAddr, ⟨false, some cexInOut2good, 42, 42⟩⟩

/-! ### Helper lemmas -/

/-- The dense-map key test agrees with structural equality of the model. -/
lemma isEqual_iff_eq (l r : AccessedStorage) : isEqual l r = true ↔ l = r := by
  cases l <;> cases r <;> simp [isEqual]

/-- The resolver returns nothing exactly on chains with an unsupported
producer. -/
lemma findAccessedStorage_none_iff (a : AddressValue) :
    findAccessedStorage a = none ↔ hasUnsupportedProducer a = true := by
  induction a <;> simp [findAccessedStorage, hasUnsupportedProducer, *]

/-! ### Claim theorems (interleaved with their helpers) -/

/-- C1: against the location's current record (before the new access is
counted), a read conflicts iff `nonReads > 0`; a write-like access conflicts
iff `nonReads > 0` or `reads > 0`; in particular when no write-like access is
open — as with overlapping reads — a new read never conflicts. -/
theorem conflictsWithAccess_spec :
    (∀ info : AccessInfo,
        info.conflictsWithAccess SILAccessKind.Read = true ↔ 0 < info.nonReads) ∧
    (∀ (info : AccessInfo) (k : SILAccessKind), ¬ k = SILAccessKind.Read →
        (info.conflictsWithAccess k = true ↔ 0 < info.nonReads ∨ 0 < info.reads)) ∧
    (∀ info : AccessInfo, info.nonReads = 0 →
        info.conflictsWithAccess SILAccessKind.Read = false) := by
  refine ⟨?_, ?_, ?_⟩
  · intro info
    simp [AccessInfo.conflictsWithAccess]
  · intro info k hk
    simp [AccessInfo.conflictsWithAccess, hk]
  · intro info h
    simp [AccessInfo.conflictsWithAccess, h]

/-- Witness for C1 at concrete records. -/
theorem conflictsWithAccess_spec_witness :
    ((⟨0, 1, none⟩ : AccessInfo).conflictsWithAccess SILAccessKind.Modify = true) ∧
    ((⟨5, 0, none⟩ : AccessInfo).conflictsWithAccess SILAccessKind.Read = false) :=
  ⟨(conflictsWithAccess_spec.2.1 ⟨0, 1, none⟩ SILAccessKind.Modify (by decide)).mpr
      (Or.inl (by decide)),
   conflictsWithAccess_spec.2.2 ⟨5, 0, none⟩ rfl⟩

/-- C3: storage-identity equality never merges distinct roots: locations of
different variants are unequal, `value` locations keyed on distinct defining
values are unequal, `globalVar` locations keyed on distinct globals are
unequal, and equal locations are structurally identical (the same storage
root, hence the same runtime storage). -/
theorem storage_identity_no_false_merge :
    (∀ l r : AccessedStorage, ¬ l.getKind = r.getKind → isEqual l r = false) ∧
    (∀ v1 v2 : AddressValue, ¬ v1 = v2 →
        isEqual (AccessedStorage.value v1) (AccessedStorage.value v2) = false) ∧
    (∀ g1 g2 : SILGlobalVariable, ¬ g1 = g2 →
        isEqual (AccessedStorage.globalVar g1) (AccessedStorage.globalVar g2) = false) ∧
    (∀ l r : AccessedStorage, isEqual l r = true → l = r) := by
  refine ⟨?_, ?_, ?_, fun l r h => (isEqual_iff_eq l r).mp h⟩
  · intro l r h
    cases l <;> cases r <;> simp_all [isEqual, AccessedStorage.getKind]
  · intro v1 v2 h
    simp [isEqual, h]
  · intro g1 g2 h
    simp [isEqual, h]

/-- Witness for C3 at concrete locations. -/
theorem storage_identity_no_false_merge_witness :
    isEqual (AccessedStorage.value (AddressValue.allocStack 0))
      (AccessedStorage.globalVar cexGlobal) = false ∧
    isEqual (AccessedStorage.value (AddressValue.allocStack 0))
      (AccessedStorage.value (AddressValue.allocStack 1)) = false ∧
    isEqual (AccessedStorage.globalVar ⟨0, none⟩)
      (AccessedStorage.globalVar ⟨1, none⟩) = false :=
  ⟨storage_identity_no_false_merge.1 _ _ (by decide),
   storage_identity_no_false_merge.2.1 _ _ (by decide),
   storage_identity_no_false_merge.2.2.1 ⟨0, none⟩ ⟨1, none⟩ (by decide)⟩

/-- C7: an address whose walked producer chain contains a producer outside
the allow-listed transparent producers and recognized roots is never resolved
to a storage location — the resolver stops at the internal invariant fault
(`llvm_unreachable`), and the walker propagates that fault instead of any
user diagnostic. -/
theorem unsupported_producer_faults :
    (∀ a : AddressValue, hasUnsupportedProducer a = true → findAccessedStorage a = none) ∧
    (∀ (s : WalkState) (ctx : ASTContext) (bai : BeginAccessInst),
        hasUnsupportedProducer bai.source = true →
        stepInstr s ctx (Instr.beginAccess bai) = Except.error Fault.unexpectedAccessSource) := by
  refine ⟨fun a h => (findAccessedStorage_none_iff a).mpr h, ?_⟩
  intro s ctx bai h
  have h1 : findAccessedStorage bai.source = none := (findAccessedStorage_none_iff _).mpr h
  simp [stepInstr, h1]

/-- Witness for C7 at a chain through an enum-data-initialization producer. -/
theorem unsupported_producer_faults_witness :
    findAccessedStorage
      (AddressValue.structElementAddr (AddressValue.initEnumDataAddr (AddressValue.allocStack 0)))
      = none ∧
    stepInstr initialWalkState cexCtx
      (Instr.beginAccess
        ⟨9, SILAccessKind.Read,
         AddressValue.structElementAddr (AddressValue.initEnumDataAddr (AddressValue.allocStack 0)),
         cexLoc 0⟩) = Except.error Fault.unexpectedAccessSource :=
  ⟨unsupported_producer_faults.1 _ (by decide),
   unsupported_producer_faults.2 initialWalkState cexCtx
     ⟨9, SILAccessKind.Read,
      AddressValue.structElementAddr (AddressValue.initEnumDataAddr (AddressValue.allocStack 0)),
      cexLoc 0⟩ (by decide)⟩


/-- Lookup after insert at the same key. -/
lemma mapGet?_set_self (m : StorageMap) (st : AccessedStorage) (v : AccessInfo) :
    mapGet? (mapSet m st v) st = some v := by
  induction m with
  | nil => simp [mapSet, mapGet?]
  | cons kv rest ih =>
    obtain ⟨k, w⟩ := kv
    by_cases h : k = st <;> simp [mapSet, mapGet?, h, ih]

/-- Lookup after insert at another key. -/
lemma mapGet?_set_ne (m : StorageMap) (st st' : AccessedStorage) (v : AccessInfo)
    (h : ¬ st' = st) : mapGet? (mapSet m st v) st' = mapGet? m st' := by
  have h2 : ¬ st = st' := fun hh => h hh.symm
  induction m with
  | nil => simp [mapSet, mapGet?, h2]
  | cons kv rest ih =>
    obtain ⟨k, w⟩ := kv
    by_cases hk : k = st
    · subst hk
      simp [mapSet, mapGet?, h2]
    · simp [mapSet, mapGet?, hk, ih]

/-- The full behaviour of the fix-it heuristic: it produces a replacement
exactly when every test in its chain passes, and the replacement rewrites the
found call's range to `<base>.swapAt(<index1>, <index2>)`. -/
lemma tryFixIt_eq_some_iff (a1 a2 : BeginAccessInst) (calls : List ApplyInst)
    (ctx : ASTContext) (f : FixIt) :
    tryFixItWithCallToCollectionSwapAt a1 a2 calls ctx = some f ↔
    ∃ (io1 io2 : InOutExpr) (ce : CallExpr) (se1 se2 : SubscriptExpr) (i1 i2 : ExprNode),
      ¬ calls = [] ∧
      a1.accessKind = SILAccessKind.Modify ∧ a2.accessKind = SILAccessKind.Modify ∧
      a1.loc.isNull = false ∧ a2.loc.isNull = false ∧
      a1.loc.asInOutExpr = some io1 ∧ a2.loc.asInOutExpr = some io2 ∧
      findSwapCall io1 io2 calls = some ce ∧
      io1.sub = InOutSub.subscriptExpr se1 ∧ io2.sub = InOutSub.subscriptExpr se2 ∧
      se1.decl = se2.decl ∧
      isSubscriptOnMutableCollection ctx se1.decl = true ∧
      se1.base.text = se2.base.text ∧
      se1.index = IndexExpr.paren i1 ∧ se2.index = IndexExpr.paren i2 ∧
      f = ⟨ce.sourceRange, se1.base.text ++ ".swapAt(" ++ i1.text ++ ", " ++ i2.text ++ ")"⟩ := by
  constructor
  · intro h
    unfold tryFixItWithCallToCollectionSwapAt at h
    split at h
    · exact Option.noConfusion h
    split at h
    · exact Option.noConfusion h
    split at h
    · exact Option.noConfusion h
    split at h
    case _ io1 io2 hio1 hio2 =>
      split at h
      · exact Option.noConfusion h
      case _ ce hce =>
        split at h
        case _ se1 se2 hse1 hse2 =>
          split at h
          · exact Option.noConfusion h
          split at h
          · exact Option.noConfusion h
          split at h
          · exact Option.noConfusion h
          split at h
          case _ i1 i2 hi1 hi2 =>
            refine ⟨io1, io2, ce, se1, se2, i1, i2, ?_⟩
            simp_all
          case _ => exact Option.noConfusion h
        case _ => exact Option.noConfusion h
    case _ => exact Option.noConfusion h
  · rintro ⟨io1, io2, ce, se1, se2, i1, i2, h1, h2, h3, h4, h5, h6, h7, h8, h9, h10,
      h11, h12, h13, h14, h15, h16⟩
    subst h16
    have h12a : isSubscriptOnMutableCollection ctx se2.decl = true := h11 ▸ h12
    simp [tryFixItWithCallToCollectionSwapAt, h1, h2, h3, h4, h5, h6, h7, h8, h9, h10,
      h11, h12, h12a, h13, h14, h15]

/-- C6 counterexample: `swap(&c[i], &c[j])` where every spec-stated
precondition holds but `c[j]`'s index argument is not a plain parenthesized
expression — no fix-it is proposed, refuting the claimed "iff". -/
theorem fixit_spec_conditions_counterexample :
    FixItSpecConditions cexAccess1 cexAccess2bad [cexSwapApplyBad] cexCtx ∧
    tryFixItWithCallToCollectionSwapAt cexAccess1 cexAccess2bad [cexSwapApplyBad] cexCtx = none :=
  ⟨⟨by decide, rfl, rfl, rfl, rfl, cexInOut1, cexInOut2bad, cexSwapCallBad, cexSub1, cexSub2bad,
     rfl, rfl, by decide, rfl, rfl, rfl, by decide, rfl⟩, rfl⟩

/-- C6 (amended): the fix-it replacement `<base>.swapAt(<index1>, <index2>)`
for the whole call range is attached iff every spec-stated precondition holds
and additionally each subscript's index is a single plain parenthesized
expression; and a failed precondition suppresses only the suggestion — the
conflict diagnostic (primary plus note) is emitted whenever the emitter runs
without faulting. -/
theorem fixit_characterization_amended :
    (∀ (a1 a2 : BeginAccessInst) (calls : List ApplyInst) (ctx : ASTContext) (f : FixIt),
      tryFixItWithCallToCollectionSwapAt a1 a2 calls ctx = some f ↔
      ∃ (io1 io2 : InOutExpr) (ce : CallExpr) (se1 se2 : SubscriptExpr) (i1 i2 : ExprNode),
        ¬ calls = [] ∧
        a1.accessKind = SILAccessKind.Modify ∧ a2.accessKind = SILAccessKind.Modify ∧
        a1.loc.isNull = false ∧ a2.loc.isNull = false ∧
        a1.loc.asInOutExpr = some io1 ∧ a2.loc.asInOutExpr = some io2 ∧
        findSwapCall io1 io2 calls = some ce ∧
        io1.sub = InOutSub.subscriptExpr se1 ∧ io2.sub = InOutSub.subscriptExpr se2 ∧
        se1.decl = se2.decl ∧
        isSubscriptOnMutableCollection ctx se1.decl = true ∧
        se1.base.text = se2.base.text ∧
        se1.index = IndexExpr.paren i1 ∧ se2.index = IndexExpr.paren i2 ∧
        f = ⟨ce.sourceRange, se1.base.text ++ ".swapAt(" ++ i1.text ++ ", " ++ i2.text ++ ")"⟩) ∧
    (∀ (storage : AccessedStorage) (priorAccess newAccess : BeginAccessInst)
       (calls : List ApplyInst) (ctx : ASTContext) (ds : List Diagnostic),
      diagnoseExclusivityViolation storage priorAccess newAccess calls ctx = Except.ok ds →
      ds.length = 2) := by
  refine ⟨tryFixIt_eq_some_iff, ?_⟩
  intro storage priorAccess newAccess calls ctx ds h
  unfold diagnoseExclusivityViolation at h
  split at h
  · exact Except.noConfusion h
  · split at h <;> (cases h; rfl)

/-- Witness for C6: the all-paren variant receives the fix-it
`c.swapAt(i, j)`, and the scenario conflict's emitter output has exactly a
primary and a note. -/
theorem fixit_characterization_amended_witness :
    tryFixItWithCallToCollectionSwapAt cexAccess1 cexAccess2good [cexSwapApplyGood] cexCtx =
      some ⟨83, "c.swapAt(i, j)"⟩ ∧
    ([⟨20, DiagMessage.exclusivityAccessRequired false 7 2, 20, none⟩,
      ⟨10, DiagMessage.exclusivityConflictingAccess, 10, none⟩] : List Diagnostic).length = 2 :=
  ⟨(fixit_characterization_amended.1 cexAccess1 cexAccess2good [cexSwapApplyGood] cexCtx
      ⟨83, "c.swapAt(i, j)"⟩).mpr
      ⟨cexInOut1, cexInOut2good, cexSwapCallGood, cexSub1, cexSub2good, cexIdx1, cexIdx2,
       by decide, rfl, rfl, rfl, rfl, rfl, rfl, by decide, rfl, rfl, rfl, by decide, rfl,
       rfl, rfl, rfl⟩,
   fixit_characterization_amended.2 (AccessedStorage.globalVar cexGlobal) cexRead1 cexWrite1
     [] cexCtx _ rfl⟩

/-- C10: beyond the spec-stated preconditions, the fix-it requires each
subscript's index to be a single plain parenthesized expression; when either
index has any other shape, no fix-it is proposed even though every
spec-stated condition holds. -/
theorem fixit_requires_paren_index :
    ∀ (a1 a2 : BeginAccessInst) (calls : List ApplyInst) (ctx : ASTContext)
      (io1 io2 : InOutExpr) (se1 se2 : SubscriptExpr),
      a1.loc.asInOutExpr = some io1 → a2.loc.asInOutExpr = some io2 →
      io1.sub = InOutSub.subscriptExpr se1 → io2.sub = InOutSub.subscriptExpr se2 →
      FixItSpecConditions a1 a2 calls ctx →
      (indexIsSingleParen se1.index = false ∨ indexIsSingleParen se2.index = false) →
      tryFixItWithCallToCollectionSwapAt a1 a2 calls ctx = none := by
  intro a1 a2 calls ctx io1 io2 se1 se2 hio1 hio2 hs1 hs2 hspec hbad
  rcases ho : tryFixItWithCallToCollectionSwapAt a1 a2 calls ctx with _ | f
  · rfl
  exfalso
  rcases (tryFixIt_eq_some_iff a1 a2 calls ctx f).mp ho with
    ⟨io1', io2', ce, se1', se2', i1, i2, _, _, _, _, _, h6, h7, _, h9, h10, _, _, _, h14, h15, _⟩
  have e1 : io1' = io1 := by rw [hio1] at h6; exact (Option.some_injective _ h6).symm
  have e2 : io2' = io2 := by rw [hio2] at h7; exact (Option.some_injective _ h7).symm
  subst e1; subst e2
  have f1 : se1' = se1 := by
    rw [hs1] at h9; cases h9; rfl
  have f2 : se2' = se2 := by
    rw [hs2] at h10; cases h10; rfl
  subst f1; subst f2
  rcases hbad with hb | hb
  · rw [h14] at hb; exact Bool.noConfusion hb
  · rw [h15] at hb; exact Bool.noConfusion hb

/-- Witness for C10 at the concrete non-paren subscript fixture. -/
theorem fixit_requires_paren_index_witness :
    tryFixItWithCallToCollectionSwapAt cexAccess1 cexAccess2bad [cexSwapApplyBad] cexCtx = none :=
  fixit_requires_paren_index cexAccess1 cexAccess2bad [cexSwapApplyBad] cexCtx
    cexInOut1 cexInOut2bad cexSub1 cexSub2bad rfl rfl rfl rfl
    ⟨by decide, rfl, rfl, rfl, rfl, cexInOut1, cexInOut2bad, cexSwapCallBad, cexSub1, cexSub2bad,
     rfl, rfl, by decide, rfl, rfl, rfl, by decide, rfl⟩
    (Or.inr rfl)


/-- C5 counterexample: on the trace read, overlapping write, end of the read,
second read, the walker records a second `ConflictingAccess` both of whose
accesses are reads (the stale `firstAccess` of the episode); its emission
trips the both-reads assertion instead of producing a write-like-sited
primary diagnostic, so the claim fails for that record. -/
theorem diagnostic_siting_counterexample :
    tracedConflicts cexCtx cexTraceEpisode =
      some [⟨AccessedStorage.globalVar cexGlobal, cexRead1, cexWrite1⟩,
            ⟨AccessedStorage.globalVar cexGlobal, cexRead1, cexRead2⟩] ∧
    cexRead1.accessKind = SILAccessKind.Read ∧
    cexRead2.accessKind = SILAccessKind.Read ∧
    checkStaticExclusivity cexTraceEpisode cexCtx =
      ([⟨20, DiagMessage.exclusivityAccessRequired false 7 2, 20, none⟩,
        ⟨10, DiagMessage.exclusivityConflictingAccess, 10, none⟩],
       some Fault.readReadConflictAssert) :=
  ⟨by decide, rfl, rfl, by decide⟩

/-- C5 (amended): for every conflict record whose two accesses are not both
reads, the emitter produces exactly a primary diagnostic sited at the access
requiring exclusive access and a note at the other access; the read-then-write
scenario on global `g` yields exactly one conflict, the write as primary
naming `g`'s declaration, the read as the note.  (A record with both accesses
reads — possible when the episode's first access was a read that has already
ended — instead trips an internal assertion.) -/
theorem diagnostic_siting_amended :
    (∀ (storage : AccessedStorage) (priorAccess newAccess : BeginAccessInst)
       (calls : List ApplyInst) (ctx : ASTContext) (ds : List Diagnostic),
       ¬ (priorAccess.accessKind = SILAccessKind.Read ∧
          newAccess.accessKind = SILAccessKind.Read) →
       diagnoseExclusivityViolation storage priorAccess newAccess calls ctx = Except.ok ds →
       ∃ mainDiag noteDiag, ds = [mainDiag, noteDiag] ∧
         getRequiredAccess (diagPrimaryAccess priorAccess newAccess) =
           ExclusiveOrShared.ExclusiveAccess ∧
         mainDiag.loc = (diagPrimaryAccess priorAccess newAccess).loc.sourceLoc ∧
         noteDiag.loc = (diagNoteAccess priorAccess newAccess).loc.sourceLoc ∧
         noteDiag.message = DiagMessage.exclusivityConflictingAccess) ∧
    checkStaticExclusivity cexTraceScenario cexCtx =
      ([⟨20, DiagMessage.exclusivityAccessRequired false 7 2, 20, none⟩,
        ⟨10, DiagMessage.exclusivityConflictingAccess, 10, none⟩], none) ∧
    tracedConflicts cexCtx cexTraceScenario =
      some [⟨AccessedStorage.globalVar cexGlobal, cexRead1, cexWrite1⟩] := by
  refine ⟨?_, by decide, by decide⟩
  intro storage priorAccess newAccess calls ctx ds hnb h
  have hexc : getRequiredAccess (diagPrimaryAccess priorAccess newAccess) =
      ExclusiveOrShared.ExclusiveAccess := by
    by_cases hp : priorAccess.accessKind = SILAccessKind.Read
    · have hn : ¬ newAccess.accessKind = SILAccessKind.Read := fun hh => hnb ⟨hp, hh⟩
      simp [diagPrimaryAccess, getRequiredAccess, hp, hn]
    · simp [diagPrimaryAccess, getRequiredAccess, hp]
  unfold diagnoseExclusivityViolation at h
  rw [if_neg hnb] at h
  split at h
  · cases h
    exact ⟨_, _, rfl, hexc, rfl, rfl, rfl⟩
  · cases h
    exact ⟨_, _, rfl, hexc, rfl, rfl, rfl⟩

/-- Witness for C5 at the scenario's conflict record. -/
theorem diagnostic_siting_amended_witness :
    ∃ mainDiag noteDiag,
      ([⟨20, DiagMessage.exclusivityAccessRequired false 7 2, 20, none⟩,
        ⟨10, DiagMessage.exclusivityConflictingAccess, 10, none⟩] : List Diagnostic) =
        [mainDiag, noteDiag] ∧
      getRequiredAccess (diagPrimaryAccess cexRead1 cexWrite1) =
        ExclusiveOrShared.ExclusiveAccess ∧
      mainDiag.loc = (diagPrimaryAccess cexRead1 cexWrite1).loc.sourceLoc ∧
      noteDiag.loc = (diagNoteAccess cexRead1 cexWrite1).loc.sourceLoc ∧
      noteDiag.message = DiagMessage.exclusivityConflictingAccess :=
  diagnostic_siting_amended.1 (AccessedStorage.globalVar cexGlobal) cexRead1 cexWrite1
    [] cexCtx _ (by decide) rfl

/-- C2 counterexample: on the trace read, overlapping write, end of the read,
second read, the first conflict is recorded at the write (after instruction 2)
and a second conflict is recorded at the second read (after instruction 4),
while the location's open-access set stays nonempty throughout (it drains only
at instruction 6) — two conflict records within one claimed episode. -/
theorem dedup_episode_counterexample :
    conflictsAfter cexCtx cexTraceEpisode 2 =
      some [⟨AccessedStorage.globalVar cexGlobal, cexRead1, cexWrite1⟩] ∧
    conflictsAfter cexCtx cexTraceEpisode 4 =
      some [⟨AccessedStorage.globalVar cexGlobal, cexRead1, cexWrite1⟩,
            ⟨AccessedStorage.globalVar cexGlobal, cexRead1, cexRead2⟩] ∧
    accessesNonemptyAfter cexCtx cexTraceEpisode 1 = true ∧
    accessesNonemptyAfter cexCtx cexTraceEpisode 2 = true ∧
    accessesNonemptyAfter cexCtx cexTraceEpisode 3 = true ∧
    accessesNonemptyAfter cexCtx cexTraceEpisode 4 = true ∧
    accessesNonemptyAfter cexCtx cexTraceEpisode 5 = true := by
  refine ⟨by decide, by decide, by decide, by decide, by decide, by decide, by decide⟩

/-- C2 (amended): at a begin-access, a new conflict record is appended iff
the location's current record (before counting the new access) passes the
conflict test and does not already satisfy `alreadyHadConflict`; right after
a record is appended the location satisfies `alreadyHadConflict`, so no
further record is appended while that condition persists — but a fresh record
may be appended as soon as the counters leave the `alreadyHadConflict` region,
which can happen before the open-access set drains to empty. -/
theorem conflict_record_append_characterization :
    ∀ (s : WalkState) (ctx : ASTContext) (bai : BeginAccessInst)
      (storage : AccessedStorage) (s' : WalkState) (info : AccessInfo),
      findAccessedStorage bai.source = some storage →
      info = (mapGet? s.accesses storage).getD emptyAccessInfo →
      stepInstr s ctx (Instr.beginAccess bai) = Except.ok s' →
      ((info.conflictsWithAccess bai.accessKind ∧ ¬ info.alreadyHadConflict) →
         ∃ c, info.getFirstAccess = some c ∧
           s'.conflicts = s.conflicts ++ [⟨storage, c, bai⟩]) ∧
      (¬ (info.conflictsWithAccess bai.accessKind ∧ ¬ info.alreadyHadConflict) →
         s'.conflicts = s.conflicts) ∧
      ((info.conflictsWithAccess bai.accessKind ∧ ¬ info.alreadyHadConflict) →
         info.reads + 1 < UWIDTH → info.nonReads + 1 < UWIDTH →
         ∃ info', mapGet? s'.accesses storage = some info' ∧
           info'.alreadyHadConflict = true) := by
  intro s ctx bai storage s' info hst hinfo hstep
  subst hinfo
  unfold stepInstr at hstep
  dsimp only at hstep
  rw [hst] at hstep
  dsimp only at hstep
  by_cases hcond : ((mapGet? s.accesses storage).getD emptyAccessInfo).conflictsWithAccess
      bai.accessKind ∧ ¬ ((mapGet? s.accesses storage).getD emptyAccessInfo).alreadyHadConflict
  · rw [if_pos hcond] at hstep
    rcases hfa : ((mapGet? s.accesses storage).getD emptyAccessInfo).getFirstAccess with _ | c
    · rw [hfa] at hstep
      exact Except.noConfusion hstep
    · rw [hfa] at hstep
      dsimp only at hstep
      have hfa' : ((mapGet? s.accesses storage).getD emptyAccessInfo).firstAccess = some c := hfa
      unfold beginAccessImpl at hstep
      rw [hfa'] at hstep
      dsimp only at hstep
      by_cases hkind : bai.accessKind = SILAccessKind.Read
      · rw [if_pos hkind] at hstep
        dsimp only at hstep
        cases hstep
        refine ⟨fun _ => ⟨c, rfl, rfl⟩, fun hnc => absurd hcond hnc, fun _ hr hnr => ?_⟩
        refine ⟨_, mapGet?_set_self _ _ _, ?_⟩
        have hcf := hcond.1
        rw [AccessInfo.conflictsWithAccess, if_pos hkind] at hcf
        have hnr0 : 0 < ((mapGet? s.accesses storage).getD emptyAccessInfo).nonReads := by
          simpa using hcf
        have huinc : uinc ((mapGet? s.accesses storage).getD emptyAccessInfo).reads =
            ((mapGet? s.accesses storage).getD emptyAccessInfo).reads + 1 :=
          Nat.mod_eq_of_lt hr
        simp [AccessInfo.alreadyHadConflict, huinc, hnr0]
      · rw [if_neg hkind] at hstep
        dsimp only at hstep
        cases hstep
        refine ⟨fun _ => ⟨c, rfl, rfl⟩, fun hnc => absurd hcond hnc, fun _ hr hnr => ?_⟩
        refine ⟨_, mapGet?_set_self _ _ _, ?_⟩
        have hcf := hcond.1
        rw [AccessInfo.conflictsWithAccess, if_neg hkind] at hcf
        have hor : 0 < ((mapGet? s.accesses storage).getD emptyAccessInfo).nonReads ∨
            0 < ((mapGet? s.accesses storage).getD emptyAccessInfo).reads := by
          simpa using hcf
        have huinc : uinc ((mapGet? s.accesses storage).getD emptyAccessInfo).nonReads =
            ((mapGet? s.accesses storage).getD emptyAccessInfo).nonReads + 1 :=
          Nat.mod_eq_of_lt hnr
        simp only [AccessInfo.alreadyHadConflict, huinc]
        rcases hor with h1 | h1
        · simp
          omega
        · simp
          omega
  · rw [if_neg hcond] at hstep
    dsimp only at hstep
    rcases hba : beginAccessImpl ((mapGet? s.accesses storage).getD emptyAccessInfo) bai with f | info1
    · rw [hba] at hstep
      exact Except.noConfusion hstep
    · rw [hba] at hstep
      cases hstep
      exact ⟨fun hc => absurd hc hcond, fun _ => rfl, fun hc => absurd hc hcond⟩

/-- Witness for C2 at a state with one open read when a write begins. -/
theorem conflict_record_append_characterization_witness :
    ∃ c, (⟨1, 0, some cexRead1⟩ : AccessInfo).getFirstAccess = some c ∧
      ([⟨AccessedStorage.globalVar cexGlobal, cexRead1, cexWrite1⟩] : List ConflictingAccess) =
        [] ++ [⟨AccessedStorage.globalVar cexGlobal, c, cexWrite1⟩] :=
  (conflict_record_append_characterization
    ⟨[(AccessedStorage.globalVar cexGlobal, ⟨1, 0, some cexRead1⟩)], [], []⟩ cexCtx cexWrite1
    (AccessedStorage.globalVar cexGlobal)
    ⟨[(AccessedStorage.globalVar cexGlobal, ⟨1, 1, some cexRead1⟩)],
     [⟨AccessedStorage.globalVar cexGlobal, cexRead1, cexWrite1⟩], []⟩
    ⟨1, 0, some cexRead1⟩ rfl rfl rfl).1 ⟨by decide, by decide⟩


/-- `uinc` is plain increment below the width. -/
lemma uinc_eq (n : Nat) (h : n + 1 < UWIDTH) : uinc n = n + 1 := Nat.mod_eq_of_lt h

/-- `uinc 0 = 1`. -/
lemma uinc_zero : uinc 0 = 1 := by norm_num [uinc, UWIDTH]

/-- `udec` is plain decrement on positive values below the width. -/
lemma udec_eq (n : Nat) (h0 : 0 < n) (h1 : n < UWIDTH) : udec n = n - 1 := by
  have hU : UWIDTH = 4294967296 := by norm_num [UWIDTH]
  unfold udec
  have h2 : n + (UWIDTH - 1) = (n - 1) + UWIDTH := by omega
  rw [h2, Nat.add_mod_right]
  exact Nat.mod_eq_of_lt (by omega)

/-- A fresh record conflicts with nothing. -/
lemma conflicts_empty (k : SILAccessKind) :
    emptyAccessInfo.conflictsWithAccess k = false := by
  by_cases h : k = SILAccessKind.Read <;>
    simp [AccessInfo.conflictsWithAccess, emptyAccessInfo, h]

/-- Counting open reads across a cons. -/
lemma countOpenReads_cons (b : BeginAccessInst) (opens : List BeginAccessInst)
    (st : AccessedStorage) :
    countOpenReads (b :: opens) st =
      countOpenReads opens st +
        (if findAccessedStorage b.source = some st ∧ b.accessKind = SILAccessKind.Read
         then 1 else 0) := by
  by_cases h1 : findAccessedStorage b.source = some st <;>
    by_cases h2 : b.accessKind = SILAccessKind.Read <;>
      simp [countOpenReads, List.filter_cons, h1, h2, Nat.add_comm]

/-- Counting open write-like accesses across a cons. -/
lemma countOpenNonReads_cons (b : BeginAccessInst) (opens : List BeginAccessInst)
    (st : AccessedStorage) :
    countOpenNonReads (b :: opens) st =
      countOpenNonReads opens st +
        (if findAccessedStorage b.source = some st ∧ ¬ b.accessKind = SILAccessKind.Read
         then 1 else 0) := by
  by_cases h1 : findAccessedStorage b.source = some st <;>
    by_cases h2 : b.accessKind = SILAccessKind.Read <;>
      simp [countOpenNonReads, List.filter_cons, h1, h2, Nat.add_comm]

/-- Open counts are bounded by the number of open accesses. -/
lemma countOpenReads_le (opens : List BeginAccessInst) (st : AccessedStorage) :
    countOpenReads opens st ≤ opens.length :=
  List.length_filter_le _ _

/-- Open counts are bounded by the number of open accesses. -/
lemma countOpenNonReads_le (opens : List BeginAccessInst) (st : AccessedStorage) :
    countOpenNonReads opens st ≤ opens.length :=
  List.length_filter_le _ _

/-- Erasing a member that passes the filter drops the filtered length by one. -/
lemma length_filter_erase_true (l : List BeginAccessInst) (b : BeginAccessInst)
    (p : BeginAccessInst → Bool) (hmem : b ∈ l) (hpb : p b = true) :
    ((l.erase b).filter p).length + 1 = (l.filter p).length := by
  induction l with
  | nil => cases hmem
  | cons x xs ih =>
    by_cases hx : x = b
    · subst hx
      rw [List.erase_cons_head]
      simp [List.filter_cons, hpb]
    · rw [List.erase_cons_tail]
      · have hmem' : b ∈ xs := by
          cases hmem with
          | head => exact absurd rfl hx
          | tail _ h => exact h
        by_cases hpx : p x = true <;> simp [List.filter_cons, hpx, ih hmem']
      · simp [hx]

/-- Erasing a member that fails the filter leaves the filtered length
unchanged. -/
lemma length_filter_erase_false (l : List BeginAccessInst) (b : BeginAccessInst)
    (p : BeginAccessInst → Bool) (hmem : b ∈ l) (hpb : p b = false) :
    ((l.erase b).filter p).length = (l.filter p).length := by
  induction l with
  | nil => cases hmem
  | cons x xs ih =>
    by_cases hx : x = b
    · subst hx
      rw [List.erase_cons_head]
      simp [List.filter_cons, hpb]
    · rw [List.erase_cons_tail]
      · have hmem' : b ∈ xs := by
          cases hmem with
          | head => exact absurd rfl hx
          | tail _ h => exact h
        by_cases hpx : p x = true <;> simp [List.filter_cons, hpx, ih hmem']
      · simp [hx]

/-- Keys absent from the map have no lookup result. -/
lemma mapGet?_eq_none_iff (m : StorageMap) (st : AccessedStorage) :
    mapGet? m st = none ↔ st ∉ m.map Prod.fst := by
  induction m with
  | nil => simp [mapGet?]
  | cons kv rest ih =>
    obtain ⟨k, v⟩ := kv
    by_cases h : k = st
    · subst h
      simp [mapGet?]
    · simp only [mapGet?, if_neg h, List.map_cons, List.mem_cons]
      rw [ih]
      constructor
      · intro hh hor
        rcases hor with hor | hor
        · exact h hor.symm
        · exact hh hor
      · intro hh hmem
        exact hh (Or.inr hmem)

/-- Keys of an insert. -/
lemma mem_keys_mapSet (m : StorageMap) (st : AccessedStorage) (v : AccessInfo)
    (a : AccessedStorage) :
    a ∈ (mapSet m st v).map Prod.fst → a ∈ m.map Prod.fst ∨ a = st := by
  induction m with
  | nil => simp [mapSet]
  | cons kv rest ih =>
    obtain ⟨k, w⟩ := kv
    by_cases h : k = st
    · subst h
      simp [mapSet]
      tauto
    · simp only [mapSet, if_neg h, List.map_cons, List.mem_cons]
      intro hh
      rcases hh with hh | hh
      · exact Or.inl (by simp [hh])
      · rcases ih hh with hh' | hh'
        · exact Or.inl (by simp [hh'])
        · exact Or.inr hh'

/-- Keys of an erase. -/
lemma mem_keys_mapErase (m : StorageMap) (st : AccessedStorage) (a : AccessedStorage) :
    a ∈ (mapErase m st).map Prod.fst → a ∈ m.map Prod.fst := by
  induction m with
  | nil => simp [mapErase]
  | cons kv rest ih =>
    obtain ⟨k, w⟩ := kv
    by_cases h : k = st
    · subst h
      simp [mapErase]
      tauto
    · simp only [mapErase, if_neg h, List.map_cons, List.mem_cons]
      intro hh
      rcases hh with hh | hh
      · exact Or.inl hh
      · exact Or.inr (ih hh)

/-- Insert preserves key distinctness. -/
lemma keys_nodup_mapSet (m : StorageMap) (st : AccessedStorage) (v : AccessInfo)
    (h : (m.map Prod.fst).Nodup) : ((mapSet m st v).map Prod.fst).Nodup := by
  induction m with
  | nil => simp [mapSet]
  | cons kv rest ih =>
    obtain ⟨k, w⟩ := kv
    simp only [List.map_cons, List.nodup_cons] at h
    by_cases hk : k = st
    · subst hk
      simpa [mapSet] using h
    · simp only [mapSet, if_neg hk, List.map_cons, List.nodup_cons]
      refine ⟨fun hmem => ?_, ih h.2⟩
      rcases mem_keys_mapSet rest st v k hmem with hh | hh
      · exact h.1 hh
      · exact hk hh

/-- Erase preserves key distinctness. -/
lemma keys_nodup_mapErase (m : StorageMap) (st : AccessedStorage)
    (h : (m.map Prod.fst).Nodup) : ((mapErase m st).map Prod.fst).Nodup := by
  induction m with
  | nil => simp [mapErase]
  | cons kv rest ih =>
    obtain ⟨k, w⟩ := kv
    simp only [List.map_cons, List.nodup_cons] at h
    by_cases hk : k = st
    · subst hk
      simpa [mapErase] using h.2
    · simp only [mapErase, if_neg hk, List.map_cons, List.nodup_cons]
      exact ⟨fun hmem => h.1 (mem_keys_mapErase rest st k hmem), ih h.2⟩

/-- Erasing a key removes it, when keys are distinct. -/
lemma mapGet?_erase_self (m : StorageMap) (st : AccessedStorage)
    (h : (m.map Prod.fst).Nodup) : mapGet? (mapErase m st) st = none := by
  induction m with
  | nil => simp [mapErase, mapGet?]
  | cons kv rest ih =>
    obtain ⟨k, w⟩ := kv
    simp only [List.map_cons, List.nodup_cons] at h
    by_cases hk : k = st
    · subst hk
      simp only [mapErase, if_pos rfl]
      exact (mapGet?_eq_none_iff rest k).mpr h.1
    · simp [mapErase, mapGet?, hk, ih h.2]

/-- Erasing one key leaves the others' lookups unchanged. -/
lemma mapGet?_erase_ne (m : StorageMap) (st st' : AccessedStorage)
    (h : ¬ st' = st) : mapGet? (mapErase m st) st' = mapGet? m st' := by
  induction m with
  | nil => simp [mapErase]
  | cons kv rest ih =>
    obtain ⟨k, w⟩ := kv
    by_cases hk : k = st
    · subst hk
      have h2 : ¬ k = st' := fun hh => h hh.symm
      simp [mapErase, mapGet?, h2]
    · simp [mapErase, mapGet?, hk, ih]

/-- A map tracking an empty open-access list is empty. -/
lemma walkInv_nil_opens (m : StorageMap) (h : WalkInv [] m) : m = [] := by
  cases m with
  | nil => rfl
  | cons kv rest =>
    exfalso
    have hget : mapGet? (kv :: rest) kv.1 = some kv.2 := by
      simp [mapGet?]
    have hpos := (h.entries kv.1 kv.2 hget).2.2.2
    simp [countOpenReads, countOpenNonReads] at hpos

/-- The tracked-count invariant entails the `firstAccess` invariant. -/
lemma walkInv_faInvariant (opens : List BeginAccessInst) (m : StorageMap)
    (h : WalkInv opens m) : faInvariant m := by
  intro st info hget
  obtain ⟨h1, h2, h3, h4⟩ := h.entries st info hget
  constructor
  · intro _
    omega
  · intro _
    exact h3

/-- The begin-access transfer on a location with no live entry: the
default-constructed record does not conflict, so no record is appended; the
entry is created with `firstAccess` set and one count. -/
lemma stepInstr_begin_fresh (s : WalkState) (ctx : ASTContext) (bai : BeginAccessInst)
    (st0 : AccessedStorage) (hst0 : findAccessedStorage bai.source = some st0)
    (hnone : mapGet? s.accesses st0 = none) :
    stepInstr s ctx (Instr.beginAccess bai) =
      Except.ok ⟨mapSet s.accesses st0
          (if bai.accessKind = SILAccessKind.Read then ⟨1, 0, some bai⟩
           else ⟨0, 1, some bai⟩),
        s.conflicts, s.callsToSwap⟩ := by
  unfold stepInstr
  dsimp only
  rw [hst0]
  dsimp only
  rw [hnone]
  dsimp only [Option.getD]
  rw [if_neg (by simp [conflicts_empty])]
  unfold beginAccessImpl
  dsimp only [emptyAccessInfo]
  rw [if_pos ⟨rfl, rfl⟩]
  by_cases hkind : bai.accessKind = SILAccessKind.Read
  · rw [if_pos hkind, if_pos hkind]
    dsimp only
    rw [uinc_zero]
  · rw [if_neg hkind, if_neg hkind]
    dsimp only
    rw [uinc_zero]

/-- The begin-access transfer on a location with a live entry whose
`firstAccess` is set: a conflict record is appended exactly when the conflict
test passes and `alreadyHadConflict` does not hold, and the matching counter
is incremented. -/
lemma stepInstr_begin_existing (s : WalkState) (ctx : ASTContext) (bai : BeginAccessInst)
    (st0 : AccessedStorage) (info : AccessInfo) (c : BeginAccessInst)
    (hst0 : findAccessedStorage bai.source = some st0)
    (hsome : mapGet? s.accesses st0 = some info)
    (hfa : info.firstAccess = some c) :
    stepInstr s ctx (Instr.beginAccess bai) =
      Except.ok ⟨mapSet s.accesses st0
          (if bai.accessKind = SILAccessKind.Read then
             ⟨uinc info.reads, info.nonReads, some c⟩
           else ⟨info.reads, uinc info.nonReads, some c⟩),
        (if info.conflictsWithAccess bai.accessKind ∧ ¬ info.alreadyHadConflict then
           s.conflicts ++ [⟨st0, c, bai⟩]
         else s.conflicts),
        s.callsToSwap⟩ := by
  unfold stepInstr
  dsimp only
  rw [hst0]
  dsimp only
  rw [hsome]
  dsimp only [Option.getD]
  have hga : info.getFirstAccess = some c := hfa
  by_cases hcond : info.conflictsWithAccess bai.accessKind ∧ ¬ info.alreadyHadConflict
  · rw [if_pos hcond, if_pos hcond, hga]
    dsimp only
    unfold beginAccessImpl
    rw [hfa]
    dsimp only
    by_cases hkind : bai.accessKind = SILAccessKind.Read
    · rw [if_pos hkind, if_pos hkind]
    · rw [if_neg hkind, if_neg hkind]
  · rw [if_neg hcond, if_neg hcond]
    dsimp only
    unfold beginAccessImpl
    rw [hfa]
    dsimp only
    by_cases hkind : bai.accessKind = SILAccessKind.Read
    · rw [if_pos hkind, if_pos hkind]
    · rw [if_neg hkind, if_neg hkind]

/-- The end-access transfer on a location with a live entry: the matching
counter is decremented and the entry is written back, or erased once no
access remains in progress. -/
lemma stepInstr_end (s : WalkState) (ctx : ASTContext) (eai : EndAccessInst)
    (st0 : AccessedStorage) (info : AccessInfo)
    (hst0 : findAccessedStorage eai.getSource = some st0)
    (hsome : mapGet? s.accesses st0 = some info) :
    stepInstr s ctx (Instr.endAccess eai) =
      Except.ok ⟨(if (endAccessImpl info eai).hasAccessesInProgress then
          mapSet s.accesses st0 (endAccessImpl info eai)
        else mapErase s.accesses st0),
        s.conflicts, s.callsToSwap⟩ := by
  unfold stepInstr
  dsimp only
  rw [hst0]
  dsimp only
  rw [hsome]
  dsimp only
  by_cases hip : (endAccessImpl info eai).hasAccessesInProgress
  · rw [if_pos hip, if_pos hip]
  · rw [if_neg hip, if_neg hip]

/-- The return transfer on an empty map passes the exit assertion. -/
lemma stepInstr_ret_empty (s : WalkState) (ctx : ASTContext) (h : s.accesses = []) :
    stepInstr s ctx Instr.ret = Except.ok s := by
  unfold stepInstr
  rw [if_pos h]

/-- The apply transfer: state other than the swap-call list is unchanged. -/
lemma stepInstr_apply_eq (s : WalkState) (ctx : ASTContext) (ai : ApplyInst) :
    stepInstr s ctx (Instr.apply ai) =
      Except.ok ⟨s.accesses, s.conflicts,
        if isCallToStandardLibrarySwap ai ctx then s.callsToSwap ++ [ai]
        else s.callsToSwap⟩ := by
  unfold stepInstr
  dsimp only
  by_cases h : isCallToStandardLibrarySwap ai ctx
  · rw [if_pos h, if_pos h]
  · rw [if_neg h, if_neg h]

/-- A successful step unfolds one iteration of the loop. -/
lemma runTrace_cons_ok (ctx : ASTContext) (s s1 : WalkState) (i : Instr)
    (rest : List Instr) (h : stepInstr s ctx i = Except.ok s1) :
    runTrace ctx s (i :: rest) = runTrace ctx s1 rest := by
  have he : runTrace ctx s (i :: rest) =
      (match stepInstr s ctx i with
       | Except.error f => Except.error f
       | Except.ok s1 => runTrace ctx s1 rest) := rfl
  rw [he, h]

/-- An open read makes the read count positive. -/
lemma countOpenReads_pos (opens : List BeginAccessInst) (b : BeginAccessInst)
    (st0 : AccessedStorage) (hmem : b ∈ opens)
    (hres : findAccessedStorage b.source = some st0)
    (hkind : b.accessKind = SILAccessKind.Read) :
    0 < countOpenReads opens st0 :=
  List.length_pos_of_mem (List.mem_filter.mpr ⟨hmem, by simp [hres, hkind]⟩)

/-- An open write-like access makes the non-read count positive. -/
lemma countOpenNonReads_pos (opens : List BeginAccessInst) (b : BeginAccessInst)
    (st0 : AccessedStorage) (hmem : b ∈ opens)
    (hres : findAccessedStorage b.source = some st0)
    (hkind : ¬ b.accessKind = SILAccessKind.Read) :
    0 < countOpenNonReads opens st0 :=
  List.length_pos_of_mem (List.mem_filter.mpr ⟨hmem, by simp [hres, hkind]⟩)

/-- Inserting the begun access's entry with the incremented counts
reestablishes the invariant for the extended open list. -/
lemma walkInv_begin_mapSet (opens : List BeginAccessInst) (m : StorageMap)
    (bai : BeginAccessInst) (st0 : AccessedStorage) (newInfo : AccessInfo)
    (hst0 : findAccessedStorage bai.source = some st0)
    (hinv : WalkInv opens m)
    (hreads : newInfo.reads = countOpenReads (bai :: opens) st0)
    (hnonreads : newInfo.nonReads = countOpenNonReads (bai :: opens) st0)
    (hfa : newInfo.firstAccess.isSome = true) :
    WalkInv (bai :: opens) (mapSet m st0 newInfo) := by
  have hc0 : ∀ st, ¬ st = st0 → ¬ findAccessedStorage bai.source = some st := by
    intro st hst hh
    rw [hst0] at hh
    exact hst (Option.some_injective _ hh).symm
  constructor
  · exact keys_nodup_mapSet _ _ _ hinv.keysNodup
  · intro st info' hget'
    by_cases hst : st = st0
    · subst hst
      rw [mapGet?_set_self] at hget'
      injection hget' with hinj
      subst hinj
      refine ⟨hreads, hnonreads, hfa, ?_⟩
      by_cases hkind : bai.accessKind = SILAccessKind.Read
      · rw [countOpenReads_cons, if_pos ⟨hst0, hkind⟩]
        omega
      · rw [countOpenNonReads_cons, if_pos ⟨hst0, hkind⟩]
        omega
    · rw [mapGet?_set_ne _ _ _ _ hst] at hget'
      obtain ⟨e1, e2, e3, e4⟩ := hinv.entries st info' hget'
      rw [countOpenReads_cons, countOpenNonReads_cons,
        if_neg (fun hh => hc0 st hst hh.1), if_neg (fun hh => hc0 st hst hh.1)]
      refine ⟨by omega, by omega, e3, by omega⟩
  · intro st hget'
    have hst : ¬ st = st0 := by
      intro hh
      subst hh
      rw [mapGet?_set_self] at hget'
      exact Option.noConfusion hget'
    rw [mapGet?_set_ne _ _ _ _ hst] at hget'
    obtain ⟨a1, a2⟩ := hinv.absent st hget'
    rw [countOpenReads_cons, countOpenNonReads_cons,
      if_neg (fun hh => hc0 st hst hh.1), if_neg (fun hh => hc0 st hst hh.1)]
    omega
  · intro b hbmem
    rcases List.mem_cons.mp hbmem with hb1 | hb1
    · subst hb1
      rw [hst0]
      rfl
    · exact hinv.resolvable b hb1

/-- The master invariant run: on a well-formed path, every step succeeds,
every intermediate storage map satisfies the `firstAccess` invariant, and the
walk ends with an empty map. -/
lemma runTrace_wf_master (tr : List Instr) :
    ∀ (ctx : ASTContext) (opens : List BeginAccessInst) (s : WalkState),
      wfFrom opens tr → WalkInv opens s.accesses →
      opens.length + tr.length < UWIDTH →
      statesAlongSatisfy faInvariant ctx s tr ∧
      ∃ s', runTrace ctx s tr = Except.ok s' ∧ s'.accesses = [] := by
  induction tr with
  | nil =>
    intro ctx opens s hwf hinv _
    have hopens : opens = [] := hwf
    subst hopens
    exact ⟨walkInv_faInvariant _ _ hinv, s, rfl, walkInv_nil_opens _ hinv⟩
  | cons i rest ih =>
    intro ctx opens s hwf hinv hb
    cases i with
    | beginAccess bai =>
      obtain ⟨hres, hwfrest⟩ := hwf
      obtain ⟨st0, hst0⟩ := Option.isSome_iff_exists.mp hres
      have hlen : (bai :: opens).length + rest.length < UWIDTH := by
        simp only [List.length_cons] at hb ⊢
        omega
      have hle1 := countOpenReads_le opens st0
      have hle2 := countOpenNonReads_le opens st0
      have hlb : opens.length + 1 < UWIDTH := by
        simp only [List.length_cons] at hb
        omega
      rcases hget : mapGet? s.accesses st0 with _ | info
      · -- no live entry: fresh record
        obtain ⟨ha1, ha2⟩ := hinv.absent st0 hget
        have hstep := stepInstr_begin_fresh s ctx bai st0 hst0 hget
        by_cases hkind : bai.accessKind = SILAccessKind.Read
        · rw [if_pos hkind] at hstep
          have hinv1 := walkInv_begin_mapSet opens s.accesses bai st0 ⟨1, 0, some bai⟩
            hst0 hinv
            (by dsimp only; rw [countOpenReads_cons, if_pos ⟨hst0, hkind⟩]; omega)
            (by dsimp only; rw [countOpenNonReads_cons, if_neg (fun hh => hh.2 hkind)]; omega)
            rfl
          obtain ⟨halong, s', hrun, hemp⟩ := ih ctx (bai :: opens)
            ⟨mapSet s.accesses st0 ⟨1, 0, some bai⟩, s.conflicts, s.callsToSwap⟩
            hwfrest hinv1 hlen
          exact ⟨⟨walkInv_faInvariant _ _ hinv, _, hstep, halong⟩, s',
            (runTrace_cons_ok ctx s _ _ rest hstep).trans hrun, hemp⟩
        · rw [if_neg hkind] at hstep
          have hinv1 := walkInv_begin_mapSet opens s.accesses bai st0 ⟨0, 1, some bai⟩
            hst0 hinv
            (by dsimp only; rw [countOpenReads_cons, if_neg (fun hh => hkind hh.2)]; omega)
            (by dsimp only; rw [countOpenNonReads_cons, if_pos ⟨hst0, hkind⟩]; omega)
            rfl
          obtain ⟨halong, s', hrun, hemp⟩ := ih ctx (bai :: opens)
            ⟨mapSet s.accesses st0 ⟨0, 1, some bai⟩, s.conflicts, s.callsToSwap⟩
            hwfrest hinv1 hlen
          exact ⟨⟨walkInv_faInvariant _ _ hinv, _, hstep, halong⟩, s',
            (runTrace_cons_ok ctx s _ _ rest hstep).trans hrun, hemp⟩
      · -- live entry
        obtain ⟨e1, e2, e3, e4⟩ := hinv.entries st0 info hget
        obtain ⟨c, hfa⟩ := Option.isSome_iff_exists.mp e3
        have hstep := stepInstr_begin_existing s ctx bai st0 info c hst0 hget hfa
        by_cases hkind : bai.accessKind = SILAccessKind.Read
        · rw [if_pos hkind] at hstep
          have huinc : uinc info.reads = info.reads + 1 :=
            uinc_eq _ (by omega)
          have hinv1 := walkInv_begin_mapSet opens s.accesses bai st0
            ⟨uinc info.reads, info.nonReads, some c⟩ hst0 hinv
            (by dsimp only; rw [huinc, countOpenReads_cons, if_pos ⟨hst0, hkind⟩]; omega)
            (by dsimp only; rw [countOpenNonReads_cons, if_neg (fun hh => hh.2 hkind)]; omega)
            rfl
          obtain ⟨halong, s', hrun, hemp⟩ := ih ctx (bai :: opens)
            ⟨mapSet s.accesses st0 ⟨uinc info.reads, info.nonReads, some c⟩,
             (if info.conflictsWithAccess bai.accessKind ∧ ¬ info.alreadyHadConflict then
                s.conflicts ++ [⟨st0, c, bai⟩]
              else s.conflicts), s.callsToSwap⟩
            hwfrest hinv1 hlen
          exact ⟨⟨walkInv_faInvariant _ _ hinv, _, hstep, halong⟩, s',
            (runTrace_cons_ok ctx s _ _ rest hstep).trans hrun, hemp⟩
        · rw [if_neg hkind] at hstep
          have huinc : uinc info.nonReads = info.nonReads + 1 :=
            uinc_eq _ (by omega)
          have hinv1 := walkInv_begin_mapSet opens s.accesses bai st0
            ⟨info.reads, uinc info.nonReads, some c⟩ hst0 hinv
            (by dsimp only; rw [countOpenReads_cons, if_neg (fun hh => hkind hh.2)]; omega)
            (by dsimp only; rw [huinc, countOpenNonReads_cons, if_pos ⟨hst0, hkind⟩]; omega)
            rfl
          obtain ⟨halong, s', hrun, hemp⟩ := ih ctx (bai :: opens)
            ⟨mapSet s.accesses st0 ⟨info.reads, uinc info.nonReads, some c⟩,
             (if info.conflictsWithAccess bai.accessKind ∧ ¬ info.alreadyHadConflict then
                s.conflicts ++ [⟨st0, c, bai⟩]
              else s.conflicts), s.callsToSwap⟩
            hwfrest hinv1 hlen
          exact ⟨⟨walkInv_faInvariant _ _ hinv, _, hstep, halong⟩, s',
            (runTrace_cons_ok ctx s _ _ rest hstep).trans hrun, hemp⟩
    | endAccess eai =>
      obtain ⟨hmem, hwfrest⟩ := hwf
      have hres := hinv.resolvable _ hmem
      obtain ⟨st0, hst0⟩ := Option.isSome_iff_exists.mp hres
      have hst0' : findAccessedStorage eai.getSource = some st0 := hst0
      have hlen : (opens.erase eai.beginAccess).length + rest.length < UWIDTH := by
        have := List.length_erase_of_mem hmem
        simp only [List.length_cons] at hb
        omega
      have hle1 := countOpenReads_le opens st0
      have hle2 := countOpenNonReads_le opens st0
      rcases hget : mapGet? s.accesses st0 with _ | info
      · exfalso
        obtain ⟨ha1, ha2⟩ := hinv.absent st0 hget
        by_cases hkind : eai.beginAccess.accessKind = SILAccessKind.Read
        · have := countOpenReads_pos opens eai.beginAccess st0 hmem hst0 hkind
          omega
        · have := countOpenNonReads_pos opens eai.beginAccess st0 hmem hst0 hkind
          omega
      · obtain ⟨e1, e2, e3, e4⟩ := hinv.entries st0 info hget
        have hstep := stepInstr_end s ctx eai st0 info hst0' hget
        -- the resulting record, by the ended access's kind
        by_cases hkind : eai.beginAccess.accessKind = SILAccessKind.Read
        · have hpos : 0 < info.reads := by
            rw [e1]
            exact countOpenReads_pos opens eai.beginAccess st0 hmem hst0 hkind
          have hdec : udec info.reads = info.reads - 1 := udec_eq _ hpos (by omega)
          have hcr : countOpenReads (opens.erase eai.beginAccess) st0 + 1 =
              countOpenReads opens st0 :=
            length_filter_erase_true opens eai.beginAccess _ hmem (by simp [hst0, hkind])
          have hcn : countOpenNonReads (opens.erase eai.beginAccess) st0 =
              countOpenNonReads opens st0 :=
            length_filter_erase_false opens eai.beginAccess _ hmem (by simp [hst0, hkind])
          have hcro : ∀ st, ¬ st = st0 → countOpenReads (opens.erase eai.beginAccess) st =
              countOpenReads opens st := by
            intro st hst
            have hne : ¬ st0 = st := fun hh => hst hh.symm
            exact length_filter_erase_false opens eai.beginAccess _ hmem
              (by simp [hst0, hne])
          have hcno : ∀ st, ¬ st = st0 → countOpenNonReads (opens.erase eai.beginAccess) st =
              countOpenNonReads opens st := by
            intro st hst
            have hne : ¬ st0 = st := fun hh => hst hh.symm
            exact length_filter_erase_false opens eai.beginAccess _ hmem
              (by simp [hst0, hne])
          have hei : endAccessImpl info eai =
              (if info.reads - 1 = 0 ∧ info.nonReads = 0 then
                ⟨info.reads - 1, info.nonReads, none⟩
               else ⟨info.reads - 1, info.nonReads, info.firstAccess⟩) := by
            unfold endAccessImpl
            rw [if_pos hkind]
            dsimp only
            rw [hdec]
          by_cases hz : info.reads - 1 = 0 ∧ info.nonReads = 0
          · rw [if_pos hz] at hei
            have hip : (endAccessImpl info eai).hasAccessesInProgress = false := by
              rw [hei]
              simp [AccessInfo.hasAccessesInProgress, hz.1, hz.2]
            rw [if_neg (by simp [hip])] at hstep
            have hinv1 : WalkInv (opens.erase eai.beginAccess) (mapErase s.accesses st0) := by
              constructor
              · exact keys_nodup_mapErase _ _ hinv.keysNodup
              · intro st info' hget'
                have hstne : ¬ st = st0 := by
                  intro hh
                  subst hh
                  rw [mapGet?_erase_self _ _ hinv.keysNodup] at hget'
                  exact Option.noConfusion hget'
                rw [mapGet?_erase_ne _ _ _ hstne] at hget'
                obtain ⟨f1, f2, f3, f4⟩ := hinv.entries st info' hget'
                rw [hcro st hstne, hcno st hstne]
                exact ⟨f1, f2, f3, f4⟩
              · intro st hget'
                by_cases hst : st = st0
                · subst hst
                  constructor
                  · omega
                  · omega
                · rw [mapGet?_erase_ne _ _ _ hst] at hget'
                  obtain ⟨a1, a2⟩ := hinv.absent st hget'
                  rw [hcro st hst, hcno st hst]
                  exact ⟨a1, a2⟩
              · intro b hbmem
                exact hinv.resolvable b (List.mem_of_mem_erase hbmem)
            obtain ⟨halong, s', hrun, hemp⟩ :=
              ih ctx (opens.erase eai.beginAccess)
                ⟨mapErase s.accesses st0, s.conflicts, s.callsToSwap⟩ hwfrest hinv1 hlen
            exact ⟨⟨walkInv_faInvariant _ _ hinv, _, hstep, halong⟩, s',
              (runTrace_cons_ok ctx s _ _ rest hstep).trans hrun, hemp⟩
          · rw [if_neg hz] at hei
            have hip : (endAccessImpl info eai).hasAccessesInProgress = true := by
              rw [hei]
              simp only [AccessInfo.hasAccessesInProgress]
              rcases Nat.eq_zero_or_pos (info.reads - 1) with hr | hr
              · rcases Nat.eq_zero_or_pos info.nonReads with hn | hn
                · exact absurd ⟨hr, hn⟩ hz
                · simp [hn]
              · simp [hr]
            rw [if_pos (by simp [hip])] at hstep
            rw [hei] at hstep
            have hinv1 : WalkInv (opens.erase eai.beginAccess)
                (mapSet s.accesses st0 ⟨info.reads - 1, info.nonReads, info.firstAccess⟩) := by
              constructor
              · exact keys_nodup_mapSet _ _ _ hinv.keysNodup
              · intro st info' hget'
                by_cases hst : st = st0
                · subst hst
                  rw [mapGet?_set_self] at hget'
                  injection hget' with hinj
                  subst hinj
                  refine ⟨by dsimp only; omega, by dsimp only; omega, e3, by omega⟩
                · rw [mapGet?_set_ne _ _ _ _ hst] at hget'
                  obtain ⟨f1, f2, f3, f4⟩ := hinv.entries st info' hget'
                  rw [hcro st hst, hcno st hst]
                  exact ⟨f1, f2, f3, f4⟩
              · intro st hget'
                have hst : ¬ st = st0 := by
                  intro hh
                  subst hh
                  rw [mapGet?_set_self] at hget'
                  exact Option.noConfusion hget'
                rw [mapGet?_set_ne _ _ _ _ hst] at hget'
                obtain ⟨a1, a2⟩ := hinv.absent st hget'
                rw [hcro st hst, hcno st hst]
                exact ⟨a1, a2⟩
              · intro b hbmem
                exact hinv.resolvable b (List.mem_of_mem_erase hbmem)
            obtain ⟨halong, s', hrun, hemp⟩ :=
              ih ctx (opens.erase eai.beginAccess)
                ⟨mapSet s.accesses st0 ⟨info.reads - 1, info.nonReads, info.firstAccess⟩,
                 s.conflicts, s.callsToSwap⟩ hwfrest hinv1 hlen
            exact ⟨⟨walkInv_faInvariant _ _ hinv, _, hstep, halong⟩, s',
              (runTrace_cons_ok ctx s _ _ rest hstep).trans hrun, hemp⟩
        · -- ended access is write-like
          have hpos : 0 < info.nonReads := by
            rw [e2]
            exact countOpenNonReads_pos opens eai.beginAccess st0 hmem hst0 hkind
          have hdec : udec info.nonReads = info.nonReads - 1 := udec_eq _ hpos (by omega)
          have hcr : countOpenNonReads (opens.erase eai.beginAccess) st0 + 1 =
              countOpenNonReads opens st0 :=
            length_filter_erase_true opens eai.beginAccess _ hmem (by simp [hst0, hkind])
          have hcn : countOpenReads (opens.erase eai.beginAccess) st0 =
              countOpenReads opens st0 :=
            length_filter_erase_false opens eai.beginAccess _ hmem (by simp [hst0, hkind])
          have hcro : ∀ st, ¬ st = st0 → countOpenReads (opens.erase eai.beginAccess) st =
              countOpenReads opens st := by
            intro st hst
            have hne : ¬ st0 = st := fun hh => hst hh.symm
            exact length_filter_erase_false opens eai.beginAccess _ hmem
              (by simp [hst0, hne])
          have hcno : ∀ st, ¬ st = st0 → countOpenNonReads (opens.erase eai.beginAccess) st =
              countOpenNonReads opens st := by
            intro st hst
            have hne : ¬ st0 = st := fun hh => hst hh.symm
            exact length_filter_erase_false opens eai.beginAccess _ hmem
              (by simp [hst0, hne])
          have hei : endAccessImpl info eai =
              (if info.reads = 0 ∧ info.nonReads - 1 = 0 then
                ⟨info.reads, info.nonReads - 1, none⟩
               else ⟨info.reads, info.nonReads - 1, info.firstAccess⟩) := by
            unfold endAccessImpl
            rw [if_neg hkind]
            dsimp only
            rw [hdec]
          by_cases hz : info.reads = 0 ∧ info.nonReads - 1 = 0
          · rw [if_pos hz] at hei
            have hip : (endAccessImpl info eai).hasAccessesInProgress = false := by
              rw [hei]
              simp [AccessInfo.hasAccessesInProgress, hz.1, hz.2]
            rw [if_neg (by simp [hip])] at hstep
            have hinv1 : WalkInv (opens.erase eai.beginAccess) (mapErase s.accesses st0) := by
              constructor
              · exact keys_nodup_mapErase _ _ hinv.keysNodup
              · intro st info' hget'
                have hstne : ¬ st = st0 := by
                  intro hh
                  subst hh
                  rw [mapGet?_erase_self _ _ hinv.keysNodup] at hget'
                  exact Option.noConfusion hget'
                rw [mapGet?_erase_ne _ _ _ hstne] at hget'
                obtain ⟨f1, f2, f3, f4⟩ := hinv.entries st info' hget'
                rw [hcro st hstne, hcno st hstne]
                exact ⟨f1, f2, f3, f4⟩
              · intro st hget'
                by_cases hst : st = st0
                · subst hst
                  constructor
                  · omega
                  · omega
                · rw [mapGet?_erase_ne _ _ _ hst] at hget'
                  obtain ⟨a1, a2⟩ := hinv.absent st hget'
                  rw [hcro st hst, hcno st hst]
                  exact ⟨a1, a2⟩
              · intro b hbmem
                exact hinv.resolvable b (List.mem_of_mem_erase hbmem)
            obtain ⟨halong, s', hrun, hemp⟩ :=
              ih ctx (opens.erase eai.beginAccess)
                ⟨mapErase s.accesses st0, s.conflicts, s.callsToSwap⟩ hwfrest hinv1 hlen
            exact ⟨⟨walkInv_faInvariant _ _ hinv, _, hstep, halong⟩, s',
              (runTrace_cons_ok ctx s _ _ rest hstep).trans hrun, hemp⟩
          · rw [if_neg hz] at hei
            have hip : (endAccessImpl info eai).hasAccessesInProgress = true := by
              rw [hei]
              simp only [AccessInfo.hasAccessesInProgress]
              rcases Nat.eq_zero_or_pos info.reads with hr | hr
              · rcases Nat.eq_zero_or_pos (info.nonReads - 1) with hn | hn
                · exact absurd ⟨hr, hn⟩ hz
                · simp [hn]
              · simp [hr]
            rw [if_pos (by simp [hip])] at hstep
            rw [hei] at hstep
            have hinv1 : WalkInv (opens.erase eai.beginAccess)
                (mapSet s.accesses st0 ⟨info.reads, info.nonReads - 1, info.firstAccess⟩) := by
              constructor
              · exact keys_nodup_mapSet _ _ _ hinv.keysNodup
              · intro st info' hget'
                by_cases hst : st = st0
                · subst hst
                  rw [mapGet?_set_self] at hget'
                  injection hget' with hinj
                  subst hinj
                  refine ⟨by dsimp only; omega, by dsimp only; omega, e3, by omega⟩
                · rw [mapGet?_set_ne _ _ _ _ hst] at hget'
                  obtain ⟨f1, f2, f3, f4⟩ := hinv.entries st info' hget'
                  rw [hcro st hst, hcno st hst]
                  exact ⟨f1, f2, f3, f4⟩
              · intro st hget'
                have hst : ¬ st = st0 := by
                  intro hh
                  subst hh
                  rw [mapGet?_set_self] at hget'
                  exact Option.noConfusion hget'
                rw [mapGet?_set_ne _ _ _ _ hst] at hget'
                obtain ⟨a1, a2⟩ := hinv.absent st hget'
                rw [hcro st hst, hcno st hst]
                exact ⟨a1, a2⟩
              · intro b hbmem
                exact hinv.resolvable b (List.mem_of_mem_erase hbmem)
            obtain ⟨halong, s', hrun, hemp⟩ :=
              ih ctx (opens.erase eai.beginAccess)
                ⟨mapSet s.accesses st0 ⟨info.reads, info.nonReads - 1, info.firstAccess⟩,
                 s.conflicts, s.callsToSwap⟩ hwfrest hinv1 hlen
            exact ⟨⟨walkInv_faInvariant _ _ hinv, _, hstep, halong⟩, s',
              (runTrace_cons_ok ctx s _ _ rest hstep).trans hrun, hemp⟩
    | apply ai =>
      have hwfrest : wfFrom opens rest := hwf
      have hstep := stepInstr_apply_eq s ctx ai
      have hlen : opens.length + rest.length < UWIDTH := by
        simp only [List.length_cons] at hb
        omega
      obtain ⟨halong, s', hrun, hemp⟩ := ih ctx opens
        ⟨s.accesses, s.conflicts,
          if isCallToStandardLibrarySwap ai ctx then s.callsToSwap ++ [ai]
          else s.callsToSwap⟩ hwfrest hinv hlen
      exact ⟨⟨walkInv_faInvariant _ _ hinv, _, hstep, halong⟩, s',
        (runTrace_cons_ok ctx s _ _ rest hstep).trans hrun, hemp⟩
    | ret =>
      obtain ⟨hopens, hwfrest⟩ := hwf
      subst hopens
      have hm := walkInv_nil_opens _ hinv
      have hstep := stepInstr_ret_empty s ctx hm
      have hlen : ([] : List BeginAccessInst).length + rest.length < UWIDTH := by
        simp only [List.length_cons] at hb ⊢
        omega
      obtain ⟨halong, s', hrun, hemp⟩ := ih ctx [] s hwfrest hinv hlen
      exact ⟨⟨walkInv_faInvariant _ _ hinv, s, hstep, halong⟩, s',
        (runTrace_cons_ok ctx s _ _ rest hstep).trans hrun, hemp⟩
    | other =>
      have hwfrest : wfFrom opens rest := hwf
      have hstep : stepInstr s ctx Instr.other = Except.ok s := rfl
      have hlen : opens.length + rest.length < UWIDTH := by
        simp only [List.length_cons] at hb
        omega
      obtain ⟨halong, s', hrun, hemp⟩ := ih ctx opens s hwfrest hinv hlen
      exact ⟨⟨walkInv_faInvariant _ _ hinv, s, hstep, halong⟩, s',
        (runTrace_cons_ok ctx s _ _ rest hstep).trans hrun, hemp⟩

/-- The invariant holds at function entry (empty map, nothing open). -/
lemma walkInv_empty : WalkInv [] ([] : StorageMap) := by
  constructor
  · simp
  · intro st info hget
    exact Option.noConfusion hget
  · intro st _
    exact ⟨rfl, rfl⟩
  · intro b hb
    exact absurd hb (List.not_mem_nil b)

/-- C4: on any linear path whose access markers are well-formed (every end
pairs a currently open begin and every begin is closed before each return),
the walk completes without fault and leaves an empty access map; a return
reached with a non-empty map is an internal fault, and any internal fault
yields no user diagnostics at all. -/
theorem balanced_trace_empty_at_return :
    (∀ (tr : List Instr) (ctx : ASTContext), wfFrom [] tr → tr.length < UWIDTH →
        ∃ s', runTrace ctx initialWalkState tr = Except.ok s' ∧ s'.accesses = []) ∧
    (∀ (s : WalkState) (ctx : ASTContext), ¬ s.accesses = [] →
        stepInstr s ctx Instr.ret = Except.error Fault.accessesNotEmptyAtReturn) ∧
    (∀ (tr : List Instr) (ctx : ASTContext) (f : Fault),
        runTrace ctx initialWalkState tr = Except.error f →
        checkStaticExclusivity tr ctx = ([], some f)) := by
  refine ⟨?_, ?_, ?_⟩
  · intro tr ctx hwf hlen
    exact (runTrace_wf_master tr ctx [] initialWalkState hwf walkInv_empty
      (by simpa using hlen)).2
  · intro s ctx h
    unfold stepInstr
    dsimp only
    rw [if_neg h]
  · intro tr ctx f h
    unfold checkStaticExclusivity
    rw [h]

/-- Witness for C4 on the read-then-write scenario path. -/
theorem balanced_trace_empty_at_return_witness :
    ∃ s', runTrace cexCtx initialWalkState cexTraceScenario = Except.ok s' ∧
      s'.accesses = [] :=
  balanced_trace_empty_at_return.1 cexTraceScenario cexCtx
    ⟨by decide, by decide, by decide, by decide, rfl, rfl⟩ (by decide)

/-- The end-access update when the paired begin was a read. -/
lemma endAccessImpl_read (info : AccessInfo) (eai : EndAccessInst)
    (hkind : eai.beginAccess.accessKind = SILAccessKind.Read) :
    endAccessImpl info eai =
      if udec info.reads = 0 ∧ info.nonReads = 0 then
        ⟨udec info.reads, info.nonReads, none⟩
      else ⟨udec info.reads, info.nonReads, info.firstAccess⟩ := by
  unfold endAccessImpl
  rw [if_pos hkind]

/-- The end-access update when the paired begin was write-like. -/
lemma endAccessImpl_nonread (info : AccessInfo) (eai : EndAccessInst)
    (hkind : ¬ eai.beginAccess.accessKind = SILAccessKind.Read) :
    endAccessImpl info eai =
      if info.reads = 0 ∧ udec info.nonReads = 0 then
        ⟨info.reads, udec info.nonReads, none⟩
      else ⟨info.reads, udec info.nonReads, info.firstAccess⟩ := by
  unfold endAccessImpl
  rw [if_neg hkind]

/-- C9: along any well-formed path, every reachable per-block state satisfies
the `firstAccess` invariant (`firstAccess` is set iff `reads + nonReads > 0`
for every record in the map); a begin-access on a fresh record sets
`firstAccess`; an end-access that returns both counters to zero clears it,
and the walker then drops the entry from the map. -/
theorem firstAccess_invariant_theorem :
    (∀ (tr : List Instr) (ctx : ASTContext), wfFrom [] tr → tr.length < UWIDTH →
        statesAlongSatisfy faInvariant ctx initialWalkState tr) ∧
    (∀ bai : BeginAccessInst, ∃ r, beginAccessImpl emptyAccessInfo bai = Except.ok r ∧
        r.firstAccess = some bai ∧ 0 < r.reads + r.nonReads) ∧
    (∀ (info : AccessInfo) (eai : EndAccessInst),
        (endAccessImpl info eai).reads = 0 → (endAccessImpl info eai).nonReads = 0 →
        (endAccessImpl info eai).firstAccess = none) ∧
    (∀ (s : WalkState) (ctx : ASTContext) (eai : EndAccessInst)
        (st0 : AccessedStorage) (info : AccessInfo),
        (s.accesses.map Prod.fst).Nodup →
        findAccessedStorage eai.getSource = some st0 →
        mapGet? s.accesses st0 = some info →
        (endAccessImpl info eai).hasAccessesInProgress = false →
        ∃ s', stepInstr s ctx (Instr.endAccess eai) = Except.ok s' ∧
          mapGet? s'.accesses st0 = none) := by
  refine ⟨?_, ?_, ?_, ?_⟩
  · intro tr ctx hwf hlen
    exact (runTrace_wf_master tr ctx [] initialWalkState hwf walkInv_empty
      (by simpa using hlen)).1
  · intro bai
    by_cases hkind : bai.accessKind = SILAccessKind.Read
    · refine ⟨⟨1, 0, some bai⟩, ?_, rfl, Nat.zero_lt_one⟩
      unfold beginAccessImpl
      dsimp only [emptyAccessInfo]
      rw [if_pos ⟨rfl, rfl⟩, if_pos hkind, uinc_zero]
    · refine ⟨⟨0, 1, some bai⟩, ?_, rfl, Nat.zero_lt_one⟩
      unfold beginAccessImpl
      dsimp only [emptyAccessInfo]
      rw [if_pos ⟨rfl, rfl⟩, if_neg hkind, uinc_zero]
  · intro info eai h1 h2
    by_cases hkind : eai.beginAccess.accessKind = SILAccessKind.Read
    · rw [endAccessImpl_read info eai hkind] at h1 h2 ⊢
      by_cases hz : udec info.reads = 0 ∧ info.nonReads = 0
      · rw [if_pos hz]
      · rw [if_neg hz] at h1 h2
        exact absurd ⟨h1, h2⟩ hz
    · rw [endAccessImpl_nonread info eai hkind] at h1 h2 ⊢
      by_cases hz : info.reads = 0 ∧ udec info.nonReads = 0
      · rw [if_pos hz]
      · rw [if_neg hz] at h1 h2
        exact absurd ⟨h1, h2⟩ hz
  · intro s ctx eai st0 info hnodup hst0 hget hip
    have hstep := stepInstr_end s ctx eai st0 info hst0 hget
    rw [if_neg (by simp [hip])] at hstep
    exact ⟨_, hstep, mapGet?_erase_self _ _ hnodup⟩

/-- Witness for C9: the invariant holds along the scenario path, and a fresh
begin-access sets `firstAccess`. -/
theorem firstAccess_invariant_theorem_witness :
    statesAlongSatisfy faInvariant cexCtx initialWalkState cexTraceScenario ∧
    ∃ r, beginAccessImpl emptyAccessInfo cexRead1 = Except.ok r ∧
      r.firstAccess = some cexRead1 ∧ 0 < r.reads + r.nonReads :=
  ⟨firstAccess_invariant_theorem.1 cexTraceScenario cexCtx
    ⟨by decide, by decide, by decide, by decide, rfl, rfl⟩ (by decide),
   firstAccess_invariant_theorem.2.1 cexRead1⟩

/-- C8: at an `end_access` whose resolved storage has no open record, the
lookup comes back empty and the source — performing no check — dereferences
the map's end iterator, to which C++ gives no semantics (no distinct
internal-error signal exists in the code); the model stops at the
`endIteratorDereference` marker, emitting no user diagnostic. -/
theorem unmatched_end_access_evaluation :
    mapGet? initialWalkState.accesses (AccessedStorage.globalVar cexGlobal) = none ∧
    runTrace cexCtx initialWalkState cexTraceUnmatchedEnd =
      Except.error Fault.endIteratorDereference ∧
    checkStaticExclusivity cexTraceUnmatchedEnd cexCtx =
      ([], some Fault.endIteratorDereference) :=
  ⟨rfl, rfl, rfl⟩

end StaticExclusivity
